import Mathlib

/-!
# collector: a fan-in of Go channels

Shallow embedding of `collector.go`.  The heap reachable from one `*Collector`
is a `World`: the collector record and the `Depot` objects created through it
(a `*Depot` is its index in `World.depots`).  Every operation is a total
function from a world to a result `Res`, which is `ok` with the next world,
`blocked` when the goroutine cannot complete the operation in this world, or
`panic` for a Go runtime panic.  Operations are atomic; concurrency is the
interleaving of operations in a schedule (`exec`).
-/

namespace collector

/-- Result of running a piece of Go code from a given world. -/
inductive Res (σ : Type) where
  | ok (s : σ)
  | blocked
  | panic
  deriving DecidableEq, Repr

/-- Sequencing of results: the continuation runs only after `ok`. -/
def Res.bind {σ τ : Type} (r : Res σ) (f : σ → Res τ) : Res τ :=
  match r with
  | .ok s => f s
  | .blocked => .blocked
  | .panic => .panic

/-- A Go channel: the buffered items (head is received next), the capacity,
and whether `close` has been called on it. -/
structure Chan (α : Type) where
  buf : List α
  cap : Nat
  closed : Bool
  deriving DecidableEq, Repr

/-- Go `make(chan T, size)`. -/
def Chan.make {α : Type} (size : Nat) : Chan α :=
  { buf := [], cap := size, closed := false }

/-- Go `ch <- x`: panics on a closed channel, enqueues at the tail when the
buffer has room, blocks otherwise. -/
def Chan.send {α : Type} (ch : Chan α) (x : α) : Res (Chan α) :=
  if ch.closed then .panic
  else if ch.buf.length < ch.cap then .ok { ch with buf := ch.buf ++ [x] }
  else .blocked

/-- Go `x, ok := <-ch`: the head of the buffer with `ok = true`; on an empty
closed channel `ok = false` (here `none`); blocks on an empty open channel. -/
def Chan.recv {α : Type} (ch : Chan α) : Res (Chan α × Option α) :=
  match ch.buf with
  | x :: rest => .ok ({ ch with buf := rest }, some x)
  | [] => if ch.closed then .ok (ch, none) else .blocked

/-- Go `close(ch)`: panics when the channel is already closed. -/
def Chan.close {α : Type} (ch : Chan α) : Res (Chan α) :=
  if ch.closed then .panic else .ok { ch with closed := true }

/-- The two errors built with `fmt.Errorf` in `collector.go`. -/
inductive GoError where
  /-- The error "collector is closed" of `Collector.Send`. -/
  | collectorIsClosed
  /-- The error "unable to send on closed Depot" of `Depot.Send`. -/
  | closedDepot
  deriving DecidableEq, Repr

/-- The `Collector` struct.  `closers` is the key set of
`map[*Depot]chan struct{}`: the value stored under a depot is that depot's own
`closer` channel (`c.closers[result] = closer`), so the keys determine the map.
The mutex is not represented: operations are atomic. -/
structure Collector (α : Type) where
  buffer : Nat
  emitter : Chan α
  closed : Bool
  closers : List Nat
  deriving DecidableEq, Repr

/-- The `Depot` struct.  `collector` is `some ()` while the pointer to the
collector is non-nil and `none` once it has been set to nil; `ch` is the source
channel the depot reads; `closer` is its `chan struct{}`. -/
structure Depot (α : Type) where
  collector : Option Unit
  ch : Chan α
  closer : Chan Unit
  deriving DecidableEq, Repr

/-- The heap: one collector and the depots created through it. -/
structure World (α : Type) where
  c : Collector α
  depots : List (Depot α)
  deriving DecidableEq, Repr

/-- Go `New(size)`. -/
def New {α : Type} (size : Nat) : World α :=
  { c := { buffer := size, emitter := Chan.make size, closed := false, closers := [] },
    depots := [] }

/-- Go `(*Collector).Listen`: the emitter channel. -/
def Collector.Listen {α : Type} (w : World α) : Chan α :=
  w.c.emitter

/-- The consumer's `data, more := <-coll.Listen()`. -/
def Collector.receive {α : Type} (w : World α) : Res (World α × Option α) :=
  (Collector.Listen w).recv.bind fun p =>
    .ok ({ w with c := { w.c with emitter := p.1 } }, p.2)

/-- Go `(*Collector).Send`: the returned option is the `error` (none is nil). -/
def Collector.Send {α : Type} (w : World α) (data : α) : Res (World α × Option GoError) :=
  if !w.c.closed then
    (w.c.emitter.send data).bind fun e =>
      .ok ({ w with c := { w.c with emitter := e } }, none)
  else
    .ok (w, some GoError.collectorIsClosed)

/-- Go `close(closer)` on the closer of depot `d`. -/
def closeCloser {α : Type} (ds : List (Depot α)) (d : Nat) : Res (List (Depot α)) :=
  match ds[d]? with
  | none => .panic
  | some dep => dep.closer.close.bind fun cl => .ok (ds.set d { dep with closer := cl })

/-- The loop `for _, closer := range c.closers { close(closer) }`. -/
def closeAll {α : Type} : List Nat → List (Depot α) → Res (List (Depot α))
  | [], ds => .ok ds
  | d :: rest, ds => (closeCloser ds d).bind fun ds1 => closeAll rest ds1

/-- Go `(*Collector).Close`. -/
def Collector.Close {α : Type} (w : World α) : Res (World α) :=
  w.c.emitter.close.bind fun e =>
    (closeAll w.c.closers w.depots).bind fun ds =>
      .ok { c := { w.c with closed := true, emitter := e, closers := [] }, depots := ds }

/-- Go `(*Collector).Depot`: allocates the depot (its pointer is the next free
index), registers it, and returns the pointer. -/
def Collector.Depot {α : Type} (w : World α) (channel : Chan α) : World α × Nat :=
  ({ c := { w.c with closers := w.depots.length :: w.c.closers },
     depots := w.depots ++ [{ collector := some (), ch := channel, closer := Chan.make 0 }] },
   w.depots.length)

/-- Go `(*Depot).remove`. -/
def Depot.remove {α : Type} (w : World α) (d : Nat) : Res (World α) :=
  match w.depots[d]? with
  | none => .panic
  | some dep =>
    if dep.collector.isSome then
      .ok { c := { w.c with closers := w.c.closers.filter (fun k => k ≠ d) },
            depots := w.depots.set d { dep with collector := none } }
    else
      .ok w

/-- Go `(*Depot).Close`. -/
def Depot.Close {α : Type} (w : World α) (d : Nat) : Res (World α) :=
  match w.depots[d]? with
  | none => .panic
  | some dep =>
    if dep.collector.isSome then
      (Depot.remove w d).bind fun w1 =>
        (closeCloser w1.depots d).bind fun ds => .ok { w1 with depots := ds }
    else
      .ok w

/-- Go `(*Depot).Send`. -/
def Depot.Send {α : Type} (w : World α) (d : Nat) (data : α) :
    Res (World α × Option GoError) :=
  match w.depots[d]? with
  | none => .panic
  | some dep =>
    if dep.collector.isNone then .ok (w, some GoError.closedDepot)
    else Collector.Send w data

/-- The case of `select` that a scheduler picks in `Run`. -/
inductive Branch where
  | data
  | stop
  deriving DecidableEq, Repr

/-- Go `select` over two cases: blocks when neither is ready, takes the ready
one when only one is, and takes `pick` when both are. -/
def selectCase (dataReady stopReady : Bool) (pick : Branch) : Option Branch :=
  if dataReady && stopReady then some pick
  else if dataReady then some Branch.data
  else if stopReady then some Branch.stop
  else none

/-- What one iteration of the loop of `Run` did. -/
inductive Iter (α : Type) where
  /-- The item was taken from the source and passed to `d.collector.Send`,
  which returned `err`; `Run` discards `err` and loops. -/
  | forwarded (x : α) (err : Option GoError)
  /-- The loop returned. -/
  | exited
  deriving DecidableEq, Repr

/-- One iteration of the `for { select { ... } }` loop of `(*Depot).Run`.
`d.collector.Send(data)` on a nil `d.collector` dereferences nil in `c.closed`
and panics.  The iteration is one atomic step: receiving the item and the
`Send` inside it happen together, and when that `Send` would block the
iteration is blocked as a whole. -/
def Depot.runIter {α : Type} (w : World α) (d : Nat) (pick : Branch) :
    Res (World α × Iter α) :=
  match w.depots[d]? with
  | none => .panic
  | some dep =>
    match selectCase (!dep.ch.buf.isEmpty || dep.ch.closed) dep.closer.closed pick with
    | none => .blocked
    | some Branch.stop => .ok (w, Iter.exited)
    | some Branch.data =>
      dep.ch.recv.bind fun p =>
        match p.2 with
        | none => .ok (w, Iter.exited)
        | some data =>
          match dep.collector with
          | none => .panic
          | some _ =>
            (Collector.Send { w with depots := w.depots.set d { dep with ch := p.1 } } data).bind
              fun q => .ok (q.1, Iter.forwarded data q.2)

/-- One scheduling step of `Run`: an iteration of the loop, followed by
`d.remove()` when the loop returned. -/
def Depot.runStep {α : Type} (w : World α) (d : Nat) (pick : Branch) :
    Res (World α × Iter α) :=
  (Depot.runIter w d pick).bind fun p =>
    match p.2 with
    | Iter.exited => (Depot.remove p.1 d).bind fun w1 => .ok (w1, Iter.exited)
    | Iter.forwarded x err => .ok (p.1, Iter.forwarded x err)

/-- The iterations of `Run` until the loop returns; `picks i` resolves the
`select` of iteration `i`. -/
def Depot.runLoop {α : Type} : Nat → World α → Nat → (Nat → Branch) → Res (World α)
  | 0, _, _, _ => .blocked
  | fuel + 1, w, d, picks =>
    (Depot.runStep w d (picks 0)).bind fun p =>
      match p.2 with
      | Iter.exited => .ok p.1
      | Iter.forwarded _ _ => Depot.runLoop fuel p.1 d (fun i => picks (i + 1))

/-- Number of iterations `Run` can make in a world: one per buffered source
item, and one more to leave the loop. -/
def Depot.runBound {α : Type} (w : World α) (d : Nat) : Nat :=
  match w.depots[d]? with
  | none => 1
  | some dep => dep.ch.buf.length + 1

/-- Go `(*Depot).Run` called synchronously, with nothing else running. -/
def Depot.Run {α : Type} (w : World α) (d : Nat) (picks : Nat → Branch) : Res (World α) :=
  Depot.runLoop (Depot.runBound w d) w d picks

/-- The consumer loop of the tests: receive until `more` is false. -/
def drainLoop {α : Type} : Nat → World α → List α → Res (World α × List α)
  | 0, _, _ => .blocked
  | fuel + 1, w, acc =>
    (Collector.receive w).bind fun p =>
      match p.2 with
      | none => .ok (p.1, acc)
      | some x => drainLoop fuel p.1 (acc ++ [x])

/-- The consumer loop run to its end from world `w`. -/
def drain {α : Type} (w : World α) : Res (World α × List α) :=
  drainLoop (w.c.emitter.buf.length + 1) w []

/-- The operations a schedule interleaves. -/
inductive Action (α : Type) where
  /-- The call `c.Depot(channel)`. -/
  | depot (channel : Chan α)
  /-- One scheduling step of `d.Run()`. -/
  | run (d : Nat) (pick : Branch)
  /-- The call `d.Close()`. -/
  | depotClose (d : Nat)
  /-- The call `d.Send(data)`. -/
  | depotSend (d : Nat) (data : α)
  /-- The call `c.Send(data)`. -/
  | send (data : α)
  /-- The call `c.Close()`. -/
  | close
  /-- The consumer's `<-c.Listen()`. -/
  | recv
  /-- A producer's `ch <- x` on the source channel of depot `d`. -/
  | feed (d : Nat) (x : α)
  /-- A producer's `close(ch)` on the source channel of depot `d`. -/
  | closeSource (d : Nat)
  deriving DecidableEq, Repr

/-- What the caller of an operation, or the trace, sees of it. -/
inductive Obs (α : Type) where
  /-- The pointer returned by `c.Depot`. -/
  | created (d : Nat)
  /-- An iteration of `Run`: nothing is returned to anyone. -/
  | ran (it : Iter α)
  /-- An operation without result. -/
  | done
  /-- A `Send` of `x` returned `err` to its caller. -/
  | sent (x : α) (err : Option GoError)
  /-- The consumer received `x`, or saw the closed stream (`none`). -/
  | received (x : Option α)
  deriving DecidableEq, Repr

/-- A producer's send on the source channel of depot `d`. -/
def feedSource {α : Type} (w : World α) (d : Nat) (x : α) : Res (World α) :=
  match w.depots[d]? with
  | none => .panic
  | some dep => (dep.ch.send x).bind fun ch1 =>
      .ok { w with depots := w.depots.set d { dep with ch := ch1 } }

/-- A producer's close of the source channel of depot `d`. -/
def closeSourceOf {α : Type} (w : World α) (d : Nat) : Res (World α) :=
  match w.depots[d]? with
  | none => .panic
  | some dep => dep.ch.close.bind fun ch1 =>
      .ok { w with depots := w.depots.set d { dep with ch := ch1 } }

/-- One atomic operation. -/
def step {α : Type} (w : World α) : Action α → Res (World α × Obs α)
  | .depot channel => .ok ((Collector.Depot w channel).1, Obs.created (Collector.Depot w channel).2)
  | .run d pick => (Depot.runStep w d pick).bind fun p => .ok (p.1, Obs.ran p.2)
  | .depotClose d => (Depot.Close w d).bind fun w1 => .ok (w1, Obs.done)
  | .depotSend d data => (Depot.Send w d data).bind fun p => .ok (p.1, Obs.sent data p.2)
  | .send data => (Collector.Send w data).bind fun p => .ok (p.1, Obs.sent data p.2)
  | .close => (Collector.Close w).bind fun w1 => .ok (w1, Obs.done)
  | .recv => (Collector.receive w).bind fun p => .ok (p.1, Obs.received p.2)
  | .feed d x => (feedSource w d x).bind fun w1 => .ok (w1, Obs.done)
  | .closeSource d => (closeSourceOf w d).bind fun w1 => .ok (w1, Obs.done)

/-- A schedule run from `w`: the final world and the trace of observations. -/
def exec {α : Type} (w : World α) : List (Action α) → Res (World α × List (Obs α))
  | [] => .ok (w, [])
  | a :: rest =>
    (step w a).bind fun p =>
      (exec p.1 rest).bind fun q => .ok (q.1, p.2 :: q.2)

/-- The items the consumer received, in order. -/
def consumed {α : Type} : List (Obs α) → List α
  | [] => []
  | Obs.received (some x) :: tr => x :: consumed tr
  | _ :: tr => consumed tr

/-- The items whose `Send` returned nil, in the order of the calls, whether
the call came from `Run`, `Depot.Send` or a direct `Collector.Send`. -/
def accepted {α : Type} : List (Obs α) → List α
  | [] => []
  | Obs.ran (Iter.forwarded x none) :: tr => x :: accepted tr
  | Obs.sent x none :: tr => x :: accepted tr
  | _ :: tr => accepted tr

/-- The items `Run` took from a source and whose `Send` returned an error that
`Run` discarded. -/
def discarded {α : Type} : List (Obs α) → List α
  | [] => []
  | Obs.ran (Iter.forwarded x (some _)) :: tr => x :: discarded tr
  | _ :: tr => discarded tr

/-- Worlds that some schedule reaches from `New size`. -/
def Reachable {α : Type} (w : World α) : Prop :=
  ∃ (size : Nat) (sched : List (Action α)) (tr : List (Obs α)),
    exec (New size) sched = .ok (w, tr)

/-- The facts about the two closed flags and the registry that every operation
keeps: the emitter is closed exactly when the flag is set; the registry has no
repeated key; a registered depot exists, still points to the collector and its
closer has not been closed; and while the collector is open every depot that
still points to the collector is registered. -/
structure Inv {α : Type} (w : World α) : Prop where
  emitter_closed : w.c.emitter.closed = w.c.closed
  nodup : w.c.closers.Nodup
  registered : ∀ d ∈ w.c.closers, ∃ dep, w.depots[d]? = some dep ∧
    dep.collector = some () ∧ dep.closer.closed = false
  open_complete : w.c.closed = false → ∀ d dep, w.depots[d]? = some dep →
    dep.collector = some () → d ∈ w.c.closers

/-- The world after `New(1)` and `Close()`. -/
def closedWorld : World Nat :=
  { c := { buffer := 1, emitter := { buf := [], cap := 1, closed := true },
           closed := true, closers := [] },
    depots := [] }

/-- A world with a registered depot `0` and a depot `1` that was closed with
`Depot.Close`. -/
def liveAndClosed : World Nat :=
  { c := { buffer := 1, emitter := { buf := [], cap := 1, closed := false },
           closed := false, closers := [0] },
    depots := [{ collector := some (), ch := { buf := [], cap := 1, closed := false },
                 closer := { buf := [], cap := 0, closed := false } },
               { collector := none, ch := { buf := [], cap := 1, closed := false },
                 closer := { buf := [], cap := 0, closed := true } }] }

/-- The world after `New(2)`, two `c.Depot` calls and the sends of `3` and `4`. -/
def busyWorld : World Nat :=
  { c := { buffer := 2, emitter := { buf := [3, 4], cap := 2, closed := false },
           closed := false, closers := [1, 0] },
    depots := [{ collector := some (), ch := { buf := [], cap := 1, closed := false },
                 closer := { buf := [], cap := 0, closed := false } },
               { collector := some (), ch := { buf := [], cap := 1, closed := false },
                 closer := { buf := [], cap := 0, closed := false } }] }

/-- The world after `New(2)` and two `c.Depot` calls, the first on a source
that holds `7` and `8` and has been closed by its producer. -/
def pendingWorld : World Nat :=
  { c := { buffer := 2, emitter := { buf := [], cap := 2, closed := false },
           closed := false, closers := [1, 0] },
    depots := [{ collector := some (), ch := { buf := [7, 8], cap := 2, closed := true },
                 closer := { buf := [], cap := 0, closed := false } },
               { collector := some (), ch := { buf := [], cap := 1, closed := false },
                 closer := { buf := [], cap := 0, closed := false } }] }

/-- Depot `d` is ready to relay: it exists, still points to the collector, its
closer has not been closed, and its source is open, empty and buffered. -/
def Idle {α : Type} (w : World α) (d : Nat) : Prop :=
  ∃ dep, w.depots[d]? = some dep ∧ dep.collector = some () ∧ dep.closer.closed = false ∧
    dep.ch.buf = [] ∧ dep.ch.closed = false ∧ 0 < dep.ch.cap

/-- The schedule of `TestCollector`: each item is sent on the source of its
depot, forwarded by an iteration of that depot's `Run`, and received by the
consumer, before the next item is sent. -/
def zipper {α : Type} : List (Nat × Branch × α) → List (Action α)
  | [] => []
  | (d, pick, x) :: rest =>
    Action.feed d x :: Action.run d pick :: Action.recv :: zipper rest

/-- The trace of the schedule `zipper items`. -/
def zipperTrace {α : Type} : List (Nat × Branch × α) → List (Obs α)
  | [] => []
  | (_, _, x) :: rest =>
    Obs.done :: Obs.ran (Iter.forwarded x none) :: Obs.received (some x) :: zipperTrace rest

/-- Items for depot `0` and depot `1` in alternation, as the test sends them. -/
def alternate {α : Type} (pick : Branch) : List α → List α → List (Nat × Branch × α)
  | a :: as, b :: bs => (0, pick, a) :: (1, pick, b) :: alternate pick as bs
  | _, _ => []

/-- The world of the test after `New(1)` and the two `c.Depot` calls on
channels of capacity one. -/
def twoDepots {α : Type} : World α :=
  (Collector.Depot (Collector.Depot (New 1) (Chan.make 1)).1 (Chan.make 1)).1

/-- The operations of an interleaving of relaying depots, their producers and
the consumer: iterations of `Run`, receives, producers sending an item whose
tag is the depot it is sent to, and the closing operations.  The direct sends
and the creation of further depots are left out. -/
def sourceDriven {α : Type} (origin : α → Nat) : Action α → Bool
  | Action.run _ _ => true
  | Action.recv => true
  | Action.feed d x => decide (origin x = d)
  | Action.closeSource _ => true
  | Action.close => true
  | Action.depotClose _ => true
  | Action.depot _ => false
  | Action.depotSend _ _ => false
  | Action.send _ => false

/-- The items the producers send to the source of depot `d` in a schedule, in
order. -/
def fed {α : Type} (d : Nat) : List (Action α) → List α
  | [] => []
  | Action.feed e x :: rest => if e = d then x :: fed d rest else fed d rest
  | _ :: rest => fed d rest

/-- The items waiting in the source channel of depot `d`. -/
def source {α : Type} (w : World α) (d : Nat) : List α :=
  ((w.depots[d]?).map fun dep => dep.ch.buf).getD []

/-- Every item waiting in a source carries the index of its depot as tag. -/
def Tagged {α : Type} (origin : α → Nat) (w : World α) : Prop :=
  ∀ d, ∀ x ∈ source w d, origin x = d

/-- The items of a list that carry the tag `d`. -/
def fromDepot {α : Type} (origin : α → Nat) (d : Nat) (l : List α) : List α :=
  l.filter fun x => decide (origin x = d)

/-- An interleaving on the world of the test, with items tagged by their
depot: both sources are fed, depot `1` relays first, then depot `0` relays its
two items with a further send and the consumer's receives in between. -/
def relaySchedule : List (Action (Nat × Nat)) :=
  [Action.feed 0 (0, 10), Action.feed 1 (1, 20), Action.run 1 Branch.data, Action.recv,
   Action.run 0 Branch.data, Action.feed 0 (0, 11), Action.recv, Action.run 0 Branch.data]

/-- The trace of `relaySchedule`. -/
def relayTrace : List (Obs (Nat × Nat)) :=
  [Obs.done, Obs.done, Obs.ran (Iter.forwarded (1, 20) none), Obs.received (some (1, 20)),
   Obs.ran (Iter.forwarded (0, 10) none), Obs.done, Obs.received (some (0, 10)),
   Obs.ran (Iter.forwarded (0, 11) none)]

/-- The world that `relaySchedule` reaches. -/
def relayWorld : World (Nat × Nat) :=
  { c := { buffer := 1, emitter := { buf := [(0, 11)], cap := 1, closed := false },
           closed := false, closers := [1, 0] },
    depots := [{ collector := some (), ch := { buf := [], cap := 1, closed := false },
                 closer := { buf := [], cap := 0, closed := false } },
               { collector := some (), ch := { buf := [], cap := 1, closed := false },
                 closer := { buf := [], cap := 0, closed := false } }] }

/-! ## Sequencing and channels -/

@[simp]
theorem Res.bind_ok {σ τ : Type} (s : σ) (f : σ → Res τ) : (Res.ok s).bind f = f s := rfl

@[simp]
theorem Res.bind_blocked {σ τ : Type} (f : σ → Res τ) :
    (Res.blocked : Res σ).bind f = Res.blocked := rfl

@[simp]
theorem Res.bind_panic {σ τ : Type} (f : σ → Res τ) :
    (Res.panic : Res σ).bind f = Res.panic := rfl

theorem Res.bind_eq_ok {σ τ : Type} {r : Res σ} {f : σ → Res τ} {t : τ} :
    r.bind f = Res.ok t ↔ ∃ s, r = Res.ok s ∧ f s = Res.ok t := by
  cases r <;> simp

theorem Chan.send_eq_ok {α : Type} {ch ch1 : Chan α} {x : α} :
    ch.send x = Res.ok ch1 ↔
      ch.closed = false ∧ ch.buf.length < ch.cap ∧ ch1 = { ch with buf := ch.buf ++ [x] } := by
  unfold Chan.send
  by_cases hc : ch.closed = true
  · simp [hc]
  · by_cases hl : ch.buf.length < ch.cap
    · simp [hc, hl, eq_comm]
    · simp [hc, hl]

theorem Chan.close_eq_ok {α : Type} {ch ch1 : Chan α} :
    ch.close = Res.ok ch1 ↔ ch.closed = false ∧ ch1 = { ch with closed := true } := by
  unfold Chan.close
  by_cases hc : ch.closed = true
  · simp [hc]
  · simp [hc, eq_comm]

theorem Chan.recv_eq_ok {α : Type} {ch : Chan α} {p : Chan α × Option α} :
    ch.recv = Res.ok p ↔
      (∃ x rest, ch.buf = x :: rest ∧ p = ({ ch with buf := rest }, some x)) ∨
      (ch.buf = [] ∧ ch.closed = true ∧ p = (ch, none)) := by
  unfold Chan.recv
  constructor
  · intro h
    split at h
    · next x rest hb =>
      cases h
      exact Or.inl ⟨x, rest, hb, rfl⟩
    · next hb =>
      split at h
      · next hc =>
        cases h
        exact Or.inr ⟨hb, hc, rfl⟩
      · cases h
  · rintro (⟨x, rest, hb, rfl⟩ | ⟨hb, hc, rfl⟩)
    · simp [hb]
    · simp [hb, hc]

/-! ## What each operation does when it completes -/

theorem Collector.Send_eq_ok {α : Type} {w : World α} {x : α}
    {q : World α × Option GoError} :
    Collector.Send w x = Res.ok q ↔
      (w.c.closed = true ∧ q = (w, some GoError.collectorIsClosed)) ∨
      (w.c.closed = false ∧ w.c.emitter.closed = false ∧
        w.c.emitter.buf.length < w.c.emitter.cap ∧
        q = ({ w with c := { w.c with
                emitter := { w.c.emitter with buf := w.c.emitter.buf ++ [x] } } }, none)) := by
  unfold Collector.Send
  by_cases hc : w.c.closed = true
  · rw [if_neg (by simp [hc])]
    constructor
    · intro h
      cases h
      exact Or.inl ⟨hc, rfl⟩
    · rintro (⟨_, rfl⟩ | ⟨h, _⟩)
      · rfl
      · rw [h] at hc
        cases hc
  · have hc1 : w.c.closed = false := by simpa using hc
    rw [if_pos (by simp [hc1]), Res.bind_eq_ok]
    constructor
    · rintro ⟨e, he, h⟩
      obtain ⟨h1, h2, rfl⟩ := Chan.send_eq_ok.1 he
      cases h
      exact Or.inr ⟨hc1, h1, h2, rfl⟩
    · rintro (⟨h, _⟩ | ⟨_, h1, h2, rfl⟩)
      · exact absurd h hc
      · exact ⟨_, Chan.send_eq_ok.2 ⟨h1, h2, rfl⟩, rfl⟩

theorem Collector.receive_eq_ok {α : Type} {w : World α} {q : World α × Option α} :
    Collector.receive w = Res.ok q ↔
      (∃ x rest, w.c.emitter.buf = x :: rest ∧
        q = ({ w with c := { w.c with emitter := { w.c.emitter with buf := rest } } }, some x)) ∨
      (w.c.emitter.buf = [] ∧ w.c.emitter.closed = true ∧ q = (w, none)) := by
  unfold Collector.receive Collector.Listen
  rw [Res.bind_eq_ok]
  constructor
  · rintro ⟨p, hp, h⟩
    rcases Chan.recv_eq_ok.1 hp with ⟨x, rest, hb, rfl⟩ | ⟨hb, hc, rfl⟩
    · cases h
      exact Or.inl ⟨x, rest, hb, rfl⟩
    · cases h
      exact Or.inr ⟨hb, hc, rfl⟩
  · rintro (⟨x, rest, hb, rfl⟩ | ⟨hb, hc, rfl⟩)
    · exact ⟨_, Chan.recv_eq_ok.2 (Or.inl ⟨x, rest, hb, rfl⟩), rfl⟩
    · exact ⟨_, Chan.recv_eq_ok.2 (Or.inr ⟨hb, hc, rfl⟩), rfl⟩

theorem closeCloser_eq_ok {α : Type} {ds ds1 : List (Depot α)} {d : Nat} :
    closeCloser ds d = Res.ok ds1 ↔
      ∃ dep, ds[d]? = some dep ∧ dep.closer.closed = false ∧
        ds1 = ds.set d { dep with closer := { dep.closer with closed := true } } := by
  unfold closeCloser
  constructor
  · intro h
    split at h
    · cases h
    · next dep hd =>
      obtain ⟨cl, hcl, h⟩ := Res.bind_eq_ok.1 h
      obtain ⟨h1, rfl⟩ := Chan.close_eq_ok.1 hcl
      cases h
      exact ⟨dep, hd, h1, rfl⟩
  · rintro ⟨dep, hd, h1, rfl⟩
    rw [hd]
    exact Res.bind_eq_ok.2 ⟨_, Chan.close_eq_ok.2 ⟨h1, rfl⟩, rfl⟩

theorem Depot.remove_eq_ok {α : Type} {w w1 : World α} {d : Nat} :
    Depot.remove w d = Res.ok w1 ↔
      ∃ dep, w.depots[d]? = some dep ∧
        ((dep.collector = some () ∧
            w1 = { c := { w.c with closers := w.c.closers.filter (fun k => k ≠ d) },
                   depots := w.depots.set d { dep with collector := none } }) ∨
         (dep.collector = none ∧ w1 = w)) := by
  unfold Depot.remove
  constructor
  · intro h
    split at h
    · cases h
    · next dep hd =>
      split at h
      · next hc =>
        cases h
        refine ⟨dep, hd, Or.inl ⟨?_, rfl⟩⟩
        cases hk : dep.collector with
        | none => rw [hk] at hc; cases hc
        | some u => rfl
      · next hc =>
        cases h
        refine ⟨dep, hd, Or.inr ⟨?_, rfl⟩⟩
        cases hk : dep.collector with
        | none => rfl
        | some u => rw [hk] at hc; simp at hc
  · rintro ⟨dep, hd, (⟨hc, rfl⟩ | ⟨hc, rfl⟩)⟩
    · rw [hd]
      simp [hc]
    · rw [hd]
      simp [hc]

theorem Depot.runIter_ok {α : Type} {w : World α} {d : Nat} {pick : Branch}
    {q : World α × Iter α} (h : Depot.runIter w d pick = Res.ok q) :
    ∃ dep, w.depots[d]? = some dep ∧
      (q = (w, Iter.exited) ∨
       ∃ x rest err w2, dep.ch.buf = x :: rest ∧ dep.collector = some () ∧
         Collector.Send
           { w with depots := w.depots.set d { dep with ch := { dep.ch with buf := rest } } } x
           = Res.ok (w2, err) ∧
         q = (w2, Iter.forwarded x err)) := by
  unfold Depot.runIter at h
  split at h
  · cases h
  · next dep hd =>
    refine ⟨dep, hd, ?_⟩
    split at h
    · cases h
    · cases h
      exact Or.inl rfl
    · obtain ⟨p, hp, h⟩ := Res.bind_eq_ok.1 h
      rcases Chan.recv_eq_ok.1 hp with ⟨x, rest, hb, rfl⟩ | ⟨hb, hc, rfl⟩
      · simp only at h
        split at h
        · cases h
        · next u hu =>
          obtain ⟨r, hr, h⟩ := Res.bind_eq_ok.1 h
          cases h
          refine Or.inr ⟨x, rest, r.2, r.1, hb, ?_, hr, rfl⟩
          rw [hu]
      · simp only at h
        cases h
        exact Or.inl rfl

theorem Depot.runStep_ok {α : Type} {w : World α} {d : Nat} {pick : Branch}
    {q : World α × Iter α} (h : Depot.runStep w d pick = Res.ok q) :
    ∃ dep, w.depots[d]? = some dep ∧
      ((q.2 = Iter.exited ∧ Depot.remove w d = Res.ok q.1) ∨
       ∃ x rest err, dep.ch.buf = x :: rest ∧ dep.collector = some () ∧
         Collector.Send
           { w with depots := w.depots.set d { dep with ch := { dep.ch with buf := rest } } } x
           = Res.ok (q.1, err) ∧
         q.2 = Iter.forwarded x err) := by
  unfold Depot.runStep at h
  obtain ⟨p, hp, h⟩ := Res.bind_eq_ok.1 h
  obtain ⟨dep, hd, hcase⟩ := Depot.runIter_ok hp
  refine ⟨dep, hd, ?_⟩
  rcases hcase with rfl | ⟨x, rest, err, w2, hb, hc, hs, rfl⟩
  · simp only at h
    obtain ⟨w1, hw1, h⟩ := Res.bind_eq_ok.1 h
    cases h
    exact Or.inl ⟨rfl, hw1⟩
  · simp only at h
    cases h
    exact Or.inr ⟨x, rest, err, hb, hc, hs, rfl⟩

theorem Depot.Close_ok {α : Type} {w w2 : World α} {d : Nat}
    (h : Depot.Close w d = Res.ok w2) :
    ∃ dep, w.depots[d]? = some dep ∧
      ((dep.collector = none ∧ w2 = w) ∨
       (dep.collector = some () ∧ ∃ w1 ds, Depot.remove w d = Res.ok w1 ∧
          closeCloser w1.depots d = Res.ok ds ∧ w2 = { w1 with depots := ds })) := by
  unfold Depot.Close at h
  split at h
  · cases h
  · next dep hd =>
    refine ⟨dep, hd, ?_⟩
    split at h
    · next hc =>
      obtain ⟨w1, hw1, h⟩ := Res.bind_eq_ok.1 h
      obtain ⟨ds, hds, h⟩ := Res.bind_eq_ok.1 h
      cases h
      refine Or.inr ⟨?_, w1, ds, hw1, hds, rfl⟩
      cases hk : dep.collector with
      | none => rw [hk] at hc; cases hc
      | some u => rfl
    · next hc =>
      cases h
      refine Or.inl ⟨?_, rfl⟩
      cases hk : dep.collector with
      | none => rfl
      | some u => rw [hk] at hc; simp at hc

/-! ## The invariant is kept by every operation -/

theorem Inv.init {α : Type} (size : Nat) : Inv (New size : World α) where
  emitter_closed := rfl
  nodup := List.nodup_nil
  registered := by intro d hd; cases hd
  open_complete := by
    intro _ d dep hd
    simp [New] at hd

theorem Inv.frame {α : Type} {w w1 : World α} (h : Inv w)
    (hc : w1.c.closed = w.c.closed) (he : w1.c.emitter.closed = w.c.emitter.closed)
    (hk : w1.c.closers = w.c.closers)
    (hd : ∀ i : Nat,
      (w1.depots[i]?).map (fun dep : Depot α => (dep.collector, dep.closer.closed))
        = (w.depots[i]?).map (fun dep : Depot α => (dep.collector, dep.closer.closed))) :
    Inv w1 where
  emitter_closed := by rw [he, hc]; exact h.emitter_closed
  nodup := by rw [hk]; exact h.nodup
  registered := by
    intro d hmem
    rw [hk] at hmem
    obtain ⟨dep, h1, h2, h3⟩ := h.registered d hmem
    have := hd d
    rw [h1] at this
    cases h4 : w1.depots[d]? with
    | none => rw [h4] at this; cases this
    | some dep1 =>
      rw [h4] at this
      simp only [Option.map_some', Option.some.injEq, Prod.mk.injEq] at this
      exact ⟨dep1, rfl, this.1.trans h2, this.2.trans h3⟩
  open_complete := by
    intro hopen d dep1 h1 h2
    rw [hk]
    rw [hc] at hopen
    have := hd d
    rw [h1] at this
    cases h4 : w.depots[d]? with
    | none => rw [h4] at this; cases this
    | some dep =>
      rw [h4] at this
      simp only [Option.map_some', Option.some.injEq, Prod.mk.injEq] at this
      exact h.open_complete hopen d dep h4 (this.1.symm.trans h2)

theorem set_frame {α β : Type} {ds : List (Depot α)} {d : Nat} {dep dep1 : Depot α}
    (f : Depot α → β) (hd : ds[d]? = some dep) (hf : f dep1 = f dep) (i : Nat) :
    ((ds.set d dep1)[i]?).map f = (ds[i]?).map f := by
  rw [List.getElem?_set]
  by_cases hi : d = i
  · subst hi
    have hlt : d < ds.length := (List.getElem?_eq_some.1 hd).1
    simp [hlt, hd, hf]
  · simp [hi]

theorem Inv.send {α : Type} {w : World α} {x : α} {q : World α × Option GoError}
    (h : Inv w) (hs : Collector.Send w x = Res.ok q) : Inv q.1 := by
  rcases Collector.Send_eq_ok.1 hs with ⟨_, rfl⟩ | ⟨_, _, _, rfl⟩
  · exact h
  · exact h.frame rfl rfl rfl (fun _ => rfl)

theorem Inv.receive {α : Type} {w : World α} {q : World α × Option α}
    (h : Inv w) (hs : Collector.receive w = Res.ok q) : Inv q.1 := by
  rcases Collector.receive_eq_ok.1 hs with ⟨x, rest, _, rfl⟩ | ⟨_, _, rfl⟩
  · exact h.frame rfl rfl rfl (fun _ => rfl)
  · exact h

theorem Inv.setCh {α : Type} {w : World α} {d : Nat} {dep : Depot α} (ch1 : Chan α)
    (h : Inv w) (hd : w.depots[d]? = some dep) :
    Inv { w with depots := w.depots.set d { dep with ch := ch1 } } :=
  h.frame rfl rfl rfl (set_frame _ hd rfl)

theorem Inv.remove {α : Type} {w w1 : World α} {d : Nat}
    (h : Inv w) (hr : Depot.remove w d = Res.ok w1) : Inv w1 := by
  obtain ⟨dep, hd, (⟨hc, rfl⟩ | ⟨_, rfl⟩)⟩ := Depot.remove_eq_ok.1 hr
  · refine ⟨h.emitter_closed, h.nodup.filter _, ?_, ?_⟩
    · intro k hk
      simp only [List.mem_filter, decide_eq_true_eq] at hk
      obtain ⟨depk, h1, h2, h3⟩ := h.registered k hk.1
      refine ⟨depk, ?_, h2, h3⟩
      show (w.depots.set d _)[k]? = some depk
      rw [List.getElem?_set_ne (Ne.symm hk.2)]
      exact h1
    · intro hopen k depk h1 h2
      have h1 : (w.depots.set d { dep with collector := none })[k]? = some depk := h1
      by_cases hkd : d = k
      · subst hkd
        have hlt : d < w.depots.length := (List.getElem?_eq_some.1 hd).1
        rw [List.getElem?_set_self hlt] at h1
        cases h1
        cases h2
      · rw [List.getElem?_set_ne hkd] at h1
        show k ∈ w.c.closers.filter _
        simp only [List.mem_filter, decide_eq_true_eq]
        exact ⟨h.open_complete hopen k depk h1 h2, Ne.symm hkd⟩
  · exact h

theorem Depot.remove_not_mem {α : Type} {w w1 : World α} {d : Nat} {dep : Depot α}
    (hd : w.depots[d]? = some dep) (hc : dep.collector = some ())
    (hr : Depot.remove w d = Res.ok w1) : d ∉ w1.c.closers := by
  obtain ⟨dep1, hd1, (⟨_, rfl⟩ | ⟨hc1, rfl⟩)⟩ := Depot.remove_eq_ok.1 hr
  · simp
  · rw [hd] at hd1
    cases hd1
    rw [hc] at hc1
    cases hc1

theorem Inv.closeCloser {α : Type} {w : World α} {d : Nat} {ds : List (Depot α)}
    (h : Inv w) (hn : d ∉ w.c.closers) (hcl : closeCloser w.depots d = Res.ok ds) :
    Inv { w with depots := ds } := by
  obtain ⟨dep, hd, _, rfl⟩ := closeCloser_eq_ok.1 hcl
  have hlt : d < w.depots.length := (List.getElem?_eq_some.1 hd).1
  refine ⟨h.emitter_closed, h.nodup, ?_, ?_⟩
  · intro k hk
    obtain ⟨depk, h1, h2, h3⟩ := h.registered k hk
    refine ⟨depk, ?_, h2, h3⟩
    have hne : d ≠ k := fun e => hn (e ▸ hk)
    show (w.depots.set d _)[k]? = some depk
    rw [List.getElem?_set_ne hne]
    exact h1
  · intro hopen k depk h1 h2
    have h1 : (w.depots.set d { dep with closer := { dep.closer with closed := true } })[k]?
        = some depk := h1
    by_cases hkd : d = k
    · subst hkd
      rw [List.getElem?_set_self hlt] at h1
      cases h1
      exact h.open_complete hopen d dep hd h2
    · rw [List.getElem?_set_ne hkd] at h1
      exact h.open_complete hopen k depk h1 h2

theorem Inv.depotClose {α : Type} {w w2 : World α} {d : Nat}
    (h : Inv w) (hcl : Depot.Close w d = Res.ok w2) : Inv w2 := by
  obtain ⟨dep, hd, (⟨_, rfl⟩ | ⟨hc, w1, ds, hr, hds, rfl⟩)⟩ := Depot.Close_ok hcl
  · exact h
  · exact (h.remove hr).closeCloser (Depot.remove_not_mem hd hc hr) hds

theorem Inv.depot {α : Type} {w : World α} (channel : Chan α) (h : Inv w) :
    Inv (Collector.Depot w channel).1 := by
  have hfresh : w.depots.length ∉ w.c.closers := by
    intro hmem
    obtain ⟨dep, h1, _⟩ := h.registered _ hmem
    exact absurd (List.getElem?_eq_some.1 h1).1 (lt_irrefl _)
  refine ⟨h.emitter_closed, List.nodup_cons.2 ⟨hfresh, h.nodup⟩, ?_, ?_⟩
  · intro k hk
    rcases List.mem_cons.1 hk with rfl | hk
    · exact ⟨_, List.getElem?_concat_length _ _, rfl, rfl⟩
    · obtain ⟨depk, h1, h2, h3⟩ := h.registered k hk
      refine ⟨depk, ?_, h2, h3⟩
      show (w.depots ++ _)[k]? = some depk
      rw [List.getElem?_append_left (List.getElem?_eq_some.1 h1).1]
      exact h1
  · intro hopen k depk h1 h2
    have h1 : (w.depots ++ [({ collector := some (), ch := channel, closer := Chan.make 0 }
        : Depot α)])[k]? = some depk := h1
    show k ∈ w.depots.length :: w.c.closers
    by_cases hk : k < w.depots.length
    · rw [List.getElem?_append_left hk] at h1
      exact List.mem_cons_of_mem _ (h.open_complete hopen k depk h1 h2)
    · have hlen := (List.getElem?_eq_some.1 h1).1
      simp only [List.length_append, List.length_singleton] at hlen
      have : k = w.depots.length := by omega
      rw [this]
      exact List.mem_cons_self _ _

theorem Collector.Close_result {α : Type} {w w1 : World α} (h : Collector.Close w = Res.ok w1) :
    w.c.emitter.closed = false ∧ ∃ ds, closeAll w.c.closers w.depots = Res.ok ds ∧
      w1 = { c := { w.c with closed := true,
                             emitter := { w.c.emitter with closed := true },
                             closers := [] },
             depots := ds } := by
  unfold Collector.Close at h
  obtain ⟨e, he, h⟩ := Res.bind_eq_ok.1 h
  obtain ⟨ds, hds, h⟩ := Res.bind_eq_ok.1 h
  obtain ⟨h1, rfl⟩ := Chan.close_eq_ok.1 he
  cases h
  exact ⟨h1, ds, hds, rfl⟩

theorem Inv.close {α : Type} {w w1 : World α} (hcl : Collector.Close w = Res.ok w1) :
    Inv w1 := by
  obtain ⟨_, ds, _, rfl⟩ := Collector.Close_result hcl
  refine ⟨rfl, List.nodup_nil, ?_, ?_⟩
  · intro d hd
    cases hd
  · intro hopen
    cases hopen

theorem Inv.runStep {α : Type} {w : World α} {d : Nat} {pick : Branch}
    {q : World α × Iter α} (h : Inv w) (hr : Depot.runStep w d pick = Res.ok q) : Inv q.1 := by
  obtain ⟨dep, hd, (⟨_, hrm⟩ | ⟨x, rest, err, _, _, hs, _⟩)⟩ := Depot.runStep_ok hr
  · exact h.remove hrm
  · exact (h.setCh _ hd).send hs

theorem feedSource_ok {α : Type} {w w1 : World α} {d : Nat} {x : α}
    (h : feedSource w d x = Res.ok w1) :
    ∃ dep, w.depots[d]? = some dep ∧ dep.ch.closed = false ∧
      dep.ch.buf.length < dep.ch.cap ∧
      w1 = { w with depots :=
        w.depots.set d { dep with ch := { dep.ch with buf := dep.ch.buf ++ [x] } } } := by
  unfold feedSource at h
  split at h
  · cases h
  · next dep hd =>
    obtain ⟨ch1, hch, h⟩ := Res.bind_eq_ok.1 h
    obtain ⟨h1, h2, rfl⟩ := Chan.send_eq_ok.1 hch
    cases h
    exact ⟨dep, hd, h1, h2, rfl⟩

theorem closeSourceOf_ok {α : Type} {w w1 : World α} {d : Nat}
    (h : closeSourceOf w d = Res.ok w1) :
    ∃ dep, w.depots[d]? = some dep ∧ dep.ch.closed = false ∧
      w1 = { w with depots :=
        w.depots.set d { dep with ch := { dep.ch with closed := true } } } := by
  unfold closeSourceOf at h
  split at h
  · cases h
  · next dep hd =>
    obtain ⟨ch1, hch, h⟩ := Res.bind_eq_ok.1 h
    obtain ⟨h1, rfl⟩ := Chan.close_eq_ok.1 hch
    cases h
    exact ⟨dep, hd, h1, rfl⟩

theorem Depot.Send_ok {α : Type} {w : World α} {d : Nat} {x : α}
    {q : World α × Option GoError} (h : Depot.Send w d x = Res.ok q) :
    ∃ dep, w.depots[d]? = some dep ∧
      ((dep.collector = none ∧ q = (w, some GoError.closedDepot)) ∨
       (dep.collector = some () ∧ Collector.Send w x = Res.ok q)) := by
  unfold Depot.Send at h
  split at h
  · cases h
  · next dep hd =>
    refine ⟨dep, hd, ?_⟩
    split at h
    · next hc =>
      cases h
      refine Or.inl ⟨?_, rfl⟩
      cases hk : dep.collector with
      | none => rfl
      | some u => rw [hk] at hc; simp at hc
    · next hc =>
      refine Or.inr ⟨?_, h⟩
      cases hk : dep.collector with
      | none => rw [hk] at hc; simp at hc
      | some u => rfl

theorem step_inv {α : Type} {w : World α} {a : Action α} {q : World α × Obs α}
    (h : Inv w) (hs : step w a = Res.ok q) : Inv q.1 := by
  cases a with
  | depot channel =>
    simp only [step, Res.ok.injEq] at hs
    subst hs
    exact h.depot channel
  | run d pick =>
    obtain ⟨p, hp, hq⟩ := Res.bind_eq_ok.1 hs
    cases hq
    exact h.runStep hp
  | depotClose d =>
    obtain ⟨p, hp, hq⟩ := Res.bind_eq_ok.1 hs
    cases hq
    exact h.depotClose hp
  | depotSend d data =>
    obtain ⟨p, hp, hq⟩ := Res.bind_eq_ok.1 hs
    cases hq
    obtain ⟨dep, _, (⟨_, rfl⟩ | ⟨_, hsend⟩)⟩ := Depot.Send_ok hp
    · exact h
    · exact h.send hsend
  | send data =>
    obtain ⟨p, hp, hq⟩ := Res.bind_eq_ok.1 hs
    cases hq
    exact h.send hp
  | close =>
    obtain ⟨p, hp, hq⟩ := Res.bind_eq_ok.1 hs
    cases hq
    exact Inv.close hp
  | recv =>
    obtain ⟨p, hp, hq⟩ := Res.bind_eq_ok.1 hs
    cases hq
    exact h.receive hp
  | feed d x =>
    obtain ⟨p, hp, hq⟩ := Res.bind_eq_ok.1 hs
    cases hq
    obtain ⟨dep, hd, _, _, rfl⟩ := feedSource_ok hp
    exact h.setCh _ hd
  | closeSource d =>
    obtain ⟨p, hp, hq⟩ := Res.bind_eq_ok.1 hs
    cases hq
    obtain ⟨dep, hd, _, rfl⟩ := closeSourceOf_ok hp
    exact h.setCh _ hd

theorem exec_cons_ok {α : Type} {w : World α} {a : Action α} {rest : List (Action α)}
    {q : World α × List (Obs α)} (h : exec w (a :: rest) = Res.ok q) :
    ∃ w1 o tr, step w a = Res.ok (w1, o) ∧ exec w1 rest = Res.ok (q.1, tr) ∧ q.2 = o :: tr := by
  simp only [exec] at h
  obtain ⟨p, hp, h⟩ := Res.bind_eq_ok.1 h
  obtain ⟨r, hr, h⟩ := Res.bind_eq_ok.1 h
  cases h
  exact ⟨p.1, p.2, r.2, hp, hr, rfl⟩

theorem exec_inv {α : Type} {sched : List (Action α)} {w : World α}
    {q : World α × List (Obs α)} (h : Inv w) (he : exec w sched = Res.ok q) : Inv q.1 := by
  induction sched generalizing w q with
  | nil =>
    simp only [exec, Res.ok.injEq] at he
    subst he
    exact h
  | cons a rest ih =>
    obtain ⟨w1, o, tr, hs, hr, _⟩ := exec_cons_ok he
    exact ih (q := (q.1, tr)) (step_inv h hs) hr

theorem Reachable.inv {α : Type} {w : World α} (h : Reachable w) : Inv w := by
  obtain ⟨size, sched, tr, he⟩ := h
  exact exec_inv (Inv.init size) he

/-! ## The closed flag never reverts -/

theorem Collector.Send_closed {α : Type} {w : World α} {x : α} {q : World α × Option GoError}
    (hs : Collector.Send w x = Res.ok q) : q.1.c.closed = w.c.closed := by
  rcases Collector.Send_eq_ok.1 hs with ⟨_, rfl⟩ | ⟨_, _, _, rfl⟩ <;> rfl

theorem Depot.remove_closed {α : Type} {w w1 : World α} {d : Nat}
    (hr : Depot.remove w d = Res.ok w1) : w1.c.closed = w.c.closed := by
  obtain ⟨dep, _, (⟨_, rfl⟩ | ⟨_, rfl⟩)⟩ := Depot.remove_eq_ok.1 hr <;> rfl

theorem step_closed_mono {α : Type} {w : World α} {a : Action α} {q : World α × Obs α}
    (hs : step w a = Res.ok q) (hc : w.c.closed = true) : q.1.c.closed = true := by
  cases a with
  | depot channel =>
    simp only [step, Res.ok.injEq] at hs
    subst hs
    exact hc
  | run d pick =>
    obtain ⟨p, hp, hq⟩ := Res.bind_eq_ok.1 hs
    cases hq
    obtain ⟨dep, hd, (⟨_, hrm⟩ | ⟨x, rest, err, _, _, hsend, _⟩)⟩ := Depot.runStep_ok hp
    · exact (Depot.remove_closed hrm).trans hc
    · exact (Collector.Send_closed hsend).trans hc
  | depotClose d =>
    obtain ⟨p, hp, hq⟩ := Res.bind_eq_ok.1 hs
    cases hq
    obtain ⟨dep, hd, (⟨_, rfl⟩ | ⟨_, w1, ds, hr, _, rfl⟩)⟩ := Depot.Close_ok hp
    · exact hc
    · exact (Depot.remove_closed hr).trans hc
  | depotSend d data =>
    obtain ⟨p, hp, hq⟩ := Res.bind_eq_ok.1 hs
    cases hq
    obtain ⟨dep, _, (⟨_, rfl⟩ | ⟨_, hsend⟩)⟩ := Depot.Send_ok hp
    · exact hc
    · exact (Collector.Send_closed hsend).trans hc
  | send data =>
    obtain ⟨p, hp, hq⟩ := Res.bind_eq_ok.1 hs
    cases hq
    exact (Collector.Send_closed hp).trans hc
  | close =>
    obtain ⟨p, hp, hq⟩ := Res.bind_eq_ok.1 hs
    cases hq
    obtain ⟨_, ds, _, rfl⟩ := Collector.Close_result hp
    rfl
  | recv =>
    obtain ⟨p, hp, hq⟩ := Res.bind_eq_ok.1 hs
    cases hq
    rcases Collector.receive_eq_ok.1 hp with ⟨x, rest, _, rfl⟩ | ⟨_, _, rfl⟩
    · exact hc
    · exact hc
  | feed d x =>
    obtain ⟨p, hp, hq⟩ := Res.bind_eq_ok.1 hs
    cases hq
    obtain ⟨dep, hd, _, _, rfl⟩ := feedSource_ok hp
    exact hc
  | closeSource d =>
    obtain ⟨p, hp, hq⟩ := Res.bind_eq_ok.1 hs
    cases hq
    obtain ⟨dep, hd, _, rfl⟩ := closeSourceOf_ok hp
    exact hc

theorem exec_closed_mono {α : Type} {sched : List (Action α)} {w : World α}
    {q : World α × List (Obs α)} (he : exec w sched = Res.ok q) (hc : w.c.closed = true) :
    q.1.c.closed = true := by
  induction sched generalizing w q with
  | nil =>
    simp only [exec, Res.ok.injEq] at he
    subst he
    exact hc
  | cons a rest ih =>
    obtain ⟨w1, o, tr, hs, hr, _⟩ := exec_cons_ok he
    exact ih (q := (q.1, tr)) hr (step_closed_mono hs hc)

/-! ## Closing every registered closer, and draining -/

theorem closeAll_spec {α : Type} {l : List Nat} {ds : List (Depot α)} (hn : l.Nodup)
    (hreg : ∀ d ∈ l, ∃ dep, ds[d]? = some dep ∧ dep.closer.closed = false) :
    ∃ ds1, closeAll l ds = Res.ok ds1 ∧
      ∀ i : Nat, ds1[i]? = (ds[i]?).map (fun dep : Depot α =>
        if i ∈ l then { dep with closer := { dep.closer with closed := true } } else dep) := by
  induction l generalizing ds with
  | nil =>
    refine ⟨ds, rfl, ?_⟩
    intro i
    simp
  | cons d rest ih =>
    obtain ⟨hd_not, hrest⟩ := List.nodup_cons.1 hn
    obtain ⟨dep, hd, hcl⟩ := hreg d (List.mem_cons_self _ _)
    have hlt : d < ds.length := (List.getElem?_eq_some.1 hd).1
    have hstep : closeCloser ds d
        = Res.ok (ds.set d { dep with closer := { dep.closer with closed := true } }) :=
      closeCloser_eq_ok.2 ⟨dep, hd, hcl, rfl⟩
    have hreg1 : ∀ k ∈ rest, ∃ depk,
        (ds.set d { dep with closer := { dep.closer with closed := true } })[k]? = some depk ∧
          depk.closer.closed = false := by
      intro k hk
      obtain ⟨depk, h1, h2⟩ := hreg k (List.mem_cons_of_mem _ hk)
      have hne : d ≠ k := fun e => hd_not (e ▸ hk)
      exact ⟨depk, by rw [List.getElem?_set_ne hne]; exact h1, h2⟩
    obtain ⟨ds1, h1, h2⟩ := ih hrest hreg1
    refine ⟨ds1, ?_, ?_⟩
    · simp only [closeAll, hstep, Res.bind_ok]
      exact h1
    · intro i
      rw [h2 i]
      by_cases hi : d = i
      · subst hi
        rw [List.getElem?_set_self hlt, hd]
        simp [hd_not]
      · rw [List.getElem?_set_ne hi]
        have : (i ∈ d :: rest) ↔ i ∈ rest := by
          simp [List.mem_cons, Ne.symm hi]
        simp [this]

theorem drainLoop_closed {α : Type} (buf : List α) :
    ∀ (n : Nat) (w : World α) (acc : List α), w.c.emitter.buf = buf →
      w.c.emitter.closed = true → buf.length < n →
      drainLoop n w acc = Res.ok
        ({ w with c := { w.c with emitter := { w.c.emitter with buf := [] } } }, acc ++ buf) := by
  induction buf with
  | nil =>
    intro n w acc hb hc hn
    obtain ⟨m, rfl⟩ : ∃ m, n = m + 1 := ⟨n - 1, by simp at hn; omega⟩
    have hrecv : Collector.receive w = Res.ok (w, none) :=
      Collector.receive_eq_ok.2 (Or.inr ⟨hb, hc, rfl⟩)
    simp only [drainLoop, hrecv, Res.bind_ok, List.append_nil]
    rw [← hb]
  | cons x rest ih =>
    intro n w acc hb hc hn
    obtain ⟨m, rfl⟩ : ∃ m, n = m + 1 := ⟨n - 1, by simp at hn; omega⟩
    have hrecv : Collector.receive w = Res.ok
        ({ w with c := { w.c with emitter := { w.c.emitter with buf := rest } } }, some x) :=
      Collector.receive_eq_ok.2 (Or.inl ⟨x, rest, hb, rfl⟩)
    simp only [drainLoop, hrecv, Res.bind_ok]
    have h := ih m { w with c := { w.c with emitter := { w.c.emitter with buf := rest } } }
      (acc ++ [x]) rfl hc (by simp at hn; omega)
    rw [h]
    simp

/-! ## The loop of `Run` -/

theorem Collector.Send_frame {α : Type} {w : World α} {x : α} {q : World α × Option GoError}
    (hs : Collector.Send w x = Res.ok q) :
    q.1.depots = w.depots ∧ q.1.c.closers = w.c.closers := by
  rcases Collector.Send_eq_ok.1 hs with ⟨_, rfl⟩ | ⟨_, _, _, rfl⟩ <;> exact ⟨rfl, rfl⟩

theorem Depot.remove_total {α : Type} {w : World α} {d : Nat} {dep : Depot α}
    (hd : w.depots[d]? = some dep) : ∃ w1, Depot.remove w d = Res.ok w1 := by
  cases hc : dep.collector with
  | none => exact ⟨w, Depot.remove_eq_ok.2 ⟨dep, hd, Or.inr ⟨hc, rfl⟩⟩⟩
  | some u => exact ⟨_, Depot.remove_eq_ok.2 ⟨dep, hd, Or.inl ⟨hc, rfl⟩⟩⟩

theorem Depot.remove_post {α : Type} {w w1 : World α} {d : Nat} (h : Inv w)
    (hr : Depot.remove w d = Res.ok w1) :
    d ∉ w1.c.closers ∧ (∃ dep1, w1.depots[d]? = some dep1 ∧ dep1.collector = none) ∧
    (∀ k, k ≠ d → w1.depots[k]? = w.depots[k]?) ∧
    (∀ k, k ≠ d → (k ∈ w1.c.closers ↔ k ∈ w.c.closers)) := by
  obtain ⟨dep, hd, (⟨hc, rfl⟩ | ⟨hc, rfl⟩)⟩ := Depot.remove_eq_ok.1 hr
  · have hlt : d < w.depots.length := (List.getElem?_eq_some.1 hd).1
    refine ⟨by simp, ⟨_, List.getElem?_set_self hlt, rfl⟩, ?_, ?_⟩
    · intro k hk
      exact List.getElem?_set_ne (Ne.symm hk)
    · intro k hk
      simp [List.mem_filter, hk]
  · refine ⟨?_, ⟨dep, hd, hc⟩, fun _ _ => rfl, fun _ _ => Iff.rfl⟩
    intro hmem
    obtain ⟨dep1, h1, h2, _⟩ := h.registered d hmem
    rw [hd] at h1
    cases h1
    rw [hc] at h2
    cases h2

theorem Depot.runLoop_post {α : Type} {d : Nat} (fuel : Nat) :
    ∀ (w w1 : World α) (picks : Nat → Branch), Inv w →
      Depot.runLoop fuel w d picks = Res.ok w1 →
      d ∉ w1.c.closers ∧ (∃ dep1, w1.depots[d]? = some dep1 ∧ dep1.collector = none) ∧
      (∀ k, k ≠ d → w1.depots[k]? = w.depots[k]?) ∧
      (∀ k, k ≠ d → (k ∈ w1.c.closers ↔ k ∈ w.c.closers)) := by
  induction fuel with
  | zero =>
    intro w w1 picks _ h
    cases h
  | succ n ih =>
    intro w w1 picks hinv h
    simp only [Depot.runLoop] at h
    obtain ⟨p, hp, h⟩ := Res.bind_eq_ok.1 h
    obtain ⟨dep, hd, (⟨hex, hrm⟩ | ⟨x, rest, err, hb, hc, hs, hfw⟩)⟩ := Depot.runStep_ok hp
    · rw [hex] at h
      cases h
      exact Depot.remove_post hinv hrm
    · rw [hfw] at h
      simp only at h
      obtain ⟨h1, h2, h3, h4⟩ := ih _ _ _ (hinv.runStep hp) h
      obtain ⟨hdep, hcl⟩ := Collector.Send_frame hs
      refine ⟨h1, h2, ?_, ?_⟩
      · intro k hk
        rw [h3 k hk]
        show p.1.depots[k]? = _
        rw [hdep]
        exact List.getElem?_set_ne (Ne.symm hk)
      · intro k hk
        rw [h4 k hk]
        show k ∈ p.1.c.closers ↔ _
        rw [hcl]

theorem Depot.runStep_stop {α : Type} {w : World α} {d : Nat} {dep : Depot α}
    (hd : w.depots[d]? = some dep) (hcl : dep.closer.closed = true) :
    Depot.runStep w d Branch.stop =
      (Depot.remove w d).bind fun w1 => Res.ok (w1, Iter.exited) := by
  have hit : Depot.runIter w d Branch.stop = Res.ok (w, Iter.exited) := by
    unfold Depot.runIter
    simp only [hd, hcl, selectCase]
    cases (!dep.ch.buf.isEmpty || dep.ch.closed) <;> simp
  simp [Depot.runStep, hit]

theorem Depot.runStep_exhausted {α : Type} {w : World α} {d : Nat} {dep : Depot α}
    (pick : Branch) (hd : w.depots[d]? = some dep) (hb : dep.ch.buf = [])
    (hcl : dep.ch.closed = true) :
    Depot.runStep w d pick =
      (Depot.remove w d).bind fun w1 => Res.ok (w1, Iter.exited) := by
  have hit : Depot.runIter w d pick = Res.ok (w, Iter.exited) := by
    unfold Depot.runIter
    simp only [hd, hb, hcl, selectCase, Chan.recv]
    cases dep.closer.closed <;> cases pick <;> simp
  simp [Depot.runStep, hit]

theorem Depot.runStep_forward {α : Type} {w : World α} {d : Nat} {dep : Depot α}
    {x : α} {rest : List α} {pick : Branch}
    (hd : w.depots[d]? = some dep) (hb : dep.ch.buf = x :: rest)
    (hc : dep.collector = some ())
    (hsel : pick = Branch.data ∨ dep.closer.closed = false) :
    Depot.runStep w d pick =
      (Collector.Send
        { w with depots := w.depots.set d { dep with ch := { dep.ch with buf := rest } } } x).bind
        fun q => Res.ok (q.1, Iter.forwarded x q.2) := by
  have hsc : selectCase (!dep.ch.buf.isEmpty || dep.ch.closed) dep.closer.closed pick
      = some Branch.data := by
    rcases hsel with rfl | h
    · simp only [hb, selectCase]
      cases dep.closer.closed <;> simp
    · simp [hb, h, selectCase]
  have hit : Depot.runIter w d pick =
      (Collector.Send
        { w with depots := w.depots.set d { dep with ch := { dep.ch with buf := rest } } } x).bind
        fun q => Res.ok (q.1, Iter.forwarded x q.2) := by
    unfold Depot.runIter
    simp only [hd]
    rw [hsc]
    simp only [Chan.recv, hb, Res.bind_ok, hc]
  rw [Depot.runStep, hit]
  cases hsend : Collector.Send
      { w with depots := w.depots.set d { dep with ch := { dep.ch with buf := rest } } } x with
  | ok q => simp
  | blocked => simp
  | panic => simp

theorem Depot.runLoop_total {α : Type} {d : Nat} (buf : List α) :
    ∀ (w : World α) (dep : Depot α) (picks : Nat → Branch) (fuel : Nat),
      w.depots[d]? = some dep → dep.ch.buf = buf → dep.ch.closed = true →
      dep.collector = some () →
      (w.c.closed = true ∨ (w.c.emitter.closed = false ∧
        w.c.emitter.buf.length + buf.length ≤ w.c.emitter.cap)) →
      buf.length < fuel →
      ∃ w1, Depot.runLoop fuel w d picks = Res.ok w1 := by
  induction buf with
  | nil =>
    intro w dep picks fuel hd hb hcl _ _ hf
    obtain ⟨n, rfl⟩ : ∃ n, fuel = n + 1 := ⟨fuel - 1, by simp at hf; omega⟩
    obtain ⟨w1, hw1⟩ := Depot.remove_total hd
    refine ⟨w1, ?_⟩
    simp [Depot.runLoop, Depot.runStep_exhausted (picks 0) hd hb hcl, hw1]
  | cons x rest ih =>
    intro w dep picks fuel hd hb hcl hc hroom hf
    obtain ⟨n, rfl⟩ : ∃ n, fuel = n + 1 := ⟨fuel - 1, by simp at hf; omega⟩
    have hlt : d < w.depots.length := (List.getElem?_eq_some.1 hd).1
    have hn : rest.length < n := by
      simp only [List.length_cons] at hf
      omega
    by_cases hsel : picks 0 = Branch.data ∨ dep.closer.closed = false
    · have hstep := Depot.runStep_forward hd hb hc hsel
      have hd1 : (w.depots.set d { dep with ch := { dep.ch with buf := rest } })[d]?
          = some { dep with ch := { dep.ch with buf := rest } } :=
        List.getElem?_set_self hlt
      have hcase : w.c.closed = true ∨ (w.c.closed = false ∧ w.c.emitter.closed = false ∧
          w.c.emitter.buf.length + (x :: rest).length ≤ w.c.emitter.cap) := by
        rcases hroom with h | ⟨h1, h2⟩
        · exact Or.inl h
        · cases hk : w.c.closed with
          | true => exact Or.inl rfl
          | false => exact Or.inr ⟨rfl, h1, h2⟩
      rcases hcase with hclosed | ⟨hopen, hem, hlen⟩
      · have hsend : Collector.Send
            { w with depots := w.depots.set d { dep with ch := { dep.ch with buf := rest } } } x
            = Res.ok (_, some GoError.collectorIsClosed) :=
          Collector.Send_eq_ok.2 (Or.inl ⟨hclosed, rfl⟩)
        obtain ⟨w1, hw1⟩ := ih
          { w with depots := w.depots.set d { dep with ch := { dep.ch with buf := rest } } }
          _ (fun i => picks (i + 1)) n hd1 rfl hcl hc (Or.inl hclosed) hn
        refine ⟨w1, ?_⟩
        simp only [Depot.runLoop, hstep, hsend, Res.bind_ok]
        exact hw1
      · have hsend : Collector.Send
            { w with depots := w.depots.set d { dep with ch := { dep.ch with buf := rest } } } x
            = Res.ok (_, none) :=
          Collector.Send_eq_ok.2 (Or.inr ⟨hopen, hem, by
            show w.c.emitter.buf.length < w.c.emitter.cap
            simp only [List.length_cons] at hlen
            omega, rfl⟩)
        obtain ⟨w1, hw1⟩ := ih
          { c := { w.c with emitter := { w.c.emitter with buf := w.c.emitter.buf ++ [x] } },
            depots := w.depots.set d { dep with ch := { dep.ch with buf := rest } } }
          _ (fun i => picks (i + 1)) n hd1 rfl hcl hc
          (Or.inr ⟨hem, by
            simp only [List.length_cons] at hlen
            simp only [List.length_append, List.length_singleton]
            omega⟩) hn
        refine ⟨w1, ?_⟩
        simp only [Depot.runLoop, hstep, hsend, Res.bind_ok]
        exact hw1
    · have hpick : picks 0 = Branch.stop := by
        cases hp : picks 0 with
        | data => exact absurd (Or.inl hp) hsel
        | stop => rfl
      have hfired : dep.closer.closed = true := by
        cases hk : dep.closer.closed with
        | false => exact absurd (Or.inr hk) hsel
        | true => rfl
      obtain ⟨w1, hw1⟩ := Depot.remove_total hd
      refine ⟨w1, ?_⟩
      simp [Depot.runLoop, hpick, Depot.runStep_stop hd hfired, hw1]

theorem Depot.runLoop_fuel_succ {α : Type} {d : Nat} (n : Nat) :
    ∀ (w : World α) (picks : Nat → Branch),
      (∀ dep, w.depots[d]? = some dep → dep.ch.buf.length ≤ n) →
      Depot.runLoop (n + 1) w d picks = Depot.runLoop (n + 2) w d picks := by
  induction n with
  | zero =>
    intro w picks hlen
    simp only [Depot.runLoop]
    cases hstep : Depot.runStep w d (picks 0) with
    | blocked => rfl
    | panic => rfl
    | ok p =>
      obtain ⟨dep, hd, (⟨hex, _⟩ | ⟨x, rest, err, hb, _, _, _⟩)⟩ := Depot.runStep_ok hstep
      · simp only [Res.bind_ok, hex]
      · have := hlen dep hd
        rw [hb] at this
        simp at this
  | succ n ih =>
    intro w picks hlen
    rw [Depot.runLoop]
    conv => rhs; rw [Depot.runLoop]
    cases hstep : Depot.runStep w d (picks 0) with
    | blocked => rfl
    | panic => rfl
    | ok p =>
      obtain ⟨dep, hd, (⟨hex, _⟩ | ⟨x, rest, err, hb, _, hsend, hfw⟩)⟩ :=
        Depot.runStep_ok hstep
      · simp only [Res.bind_ok, hex]
      · simp only [Res.bind_ok, hfw]
        apply ih
        intro dep1 hd1
        have hlt : d < w.depots.length := (List.getElem?_eq_some.1 hd).1
        rw [(Collector.Send_frame hsend).1] at hd1
        have hd2 : (w.depots.set d { dep with ch := { dep.ch with buf := rest } })[d]?
            = some dep1 := hd1
        rw [List.getElem?_set_self hlt] at hd2
        cases hd2
        have := hlen dep hd
        rw [hb] at this
        simp only [List.length_cons] at this
        show rest.length ≤ n
        omega

theorem Depot.runLoop_fuel_add {α : Type} {d : Nat} (w : World α) (picks : Nat → Branch)
    (k : Nat) :
    Depot.runLoop (Depot.runBound w d + k) w d picks = Depot.Run w d picks := by
  induction k with
  | zero => rfl
  | succ k ih =>
    rw [← ih]
    have hb : ∃ n, Depot.runBound w d + k = n + 1 ∧
        ∀ dep, w.depots[d]? = some dep → dep.ch.buf.length ≤ n := by
      cases hd : w.depots[d]? with
      | none =>
        refine ⟨k, by simp only [Depot.runBound, hd]; omega, ?_⟩
        intro dep h
        cases h
      | some dep0 =>
        refine ⟨dep0.ch.buf.length + k, by simp only [Depot.runBound, hd]; omega, ?_⟩
        intro dep h
        cases h
        omega
    obtain ⟨n, hn, hlen⟩ := hb
    rw [show Depot.runBound w d + (k + 1) = n + 2 by omega, hn]
    exact (Depot.runLoop_fuel_succ n w picks hlen).symm

/-! ## The output is the sequence of accepted sends -/

theorem consumed_cons {α : Type} (o : Obs α) (tr : List (Obs α)) :
    consumed (o :: tr) = consumed [o] ++ consumed tr := by
  cases o with
  | received x => cases x <;> simp [consumed]
  | created d => simp [consumed]
  | ran it => simp [consumed]
  | done => simp [consumed]
  | sent x err => simp [consumed]

theorem accepted_cons {α : Type} (o : Obs α) (tr : List (Obs α)) :
    accepted (o :: tr) = accepted [o] ++ accepted tr := by
  cases o with
  | received x => simp [accepted]
  | created d => simp [accepted]
  | ran it =>
    cases it with
    | exited => simp [accepted]
    | forwarded x err => cases err <;> simp [accepted]
  | done => simp [accepted]
  | sent x err => cases err <;> simp [accepted]

theorem discarded_cons {α : Type} (o : Obs α) (tr : List (Obs α)) :
    discarded (o :: tr) = discarded [o] ++ discarded tr := by
  cases o with
  | received x => simp [discarded]
  | created d => simp [discarded]
  | ran it =>
    cases it with
    | exited => simp [discarded]
    | forwarded x err => cases err <;> simp [discarded]
  | done => simp [discarded]
  | sent x err => simp [discarded]

theorem Collector.Send_output {α : Type} {w : World α} {x : α}
    {q : World α × Option GoError} (hs : Collector.Send w x = Res.ok q) :
    (q.2 = none ∧ w.c.closed = false ∧ q.1.c.emitter.buf = w.c.emitter.buf ++ [x]) ∨
    (q.2 = some GoError.collectorIsClosed ∧ w.c.closed = true ∧
      q.1.c.emitter.buf = w.c.emitter.buf) := by
  rcases Collector.Send_eq_ok.1 hs with ⟨hc, rfl⟩ | ⟨hc, _, _, rfl⟩
  · exact Or.inr ⟨rfl, hc, rfl⟩
  · exact Or.inl ⟨rfl, hc, rfl⟩

theorem Depot.remove_emitter {α : Type} {w w1 : World α} {d : Nat}
    (hr : Depot.remove w d = Res.ok w1) : w1.c.emitter = w.c.emitter := by
  obtain ⟨dep, _, (⟨_, rfl⟩ | ⟨_, rfl⟩)⟩ := Depot.remove_eq_ok.1 hr <;> rfl

theorem step_output {α : Type} {w : World α} {a : Action α} {q : World α × Obs α}
    (hs : step w a = Res.ok q) :
    consumed [q.2] ++ q.1.c.emitter.buf = w.c.emitter.buf ++ accepted [q.2] ∧
    (q.1.c.closed = false → discarded [q.2] = []) := by
  cases a with
  | depot channel =>
    simp only [step, Res.ok.injEq] at hs
    subst hs
    simp [consumed, accepted, discarded, Collector.Depot]
  | run d pick =>
    obtain ⟨p, hp, hq⟩ := Res.bind_eq_ok.1 hs
    cases hq
    obtain ⟨dep, hd, (⟨hex, hrm⟩ | ⟨x, rest, err, _, _, hsend, hfw⟩)⟩ := Depot.runStep_ok hp
    · simp only [hex, consumed, accepted, discarded, List.nil_append, List.append_nil,
        Depot.remove_emitter hrm, implies_true, and_self]
    · simp only [hfw]
      have hcl := Collector.Send_closed hsend
      rcases Collector.Send_output hsend with ⟨he, hc, hb⟩ | ⟨he, hc, hb⟩
      · simp only at he hb
        subst he
        simp only [consumed, accepted, discarded, List.nil_append, hb, implies_true, and_self]
      · simp only at he hb hcl hc
        subst he
        simp only [consumed, accepted, discarded, List.nil_append, hb, List.append_nil,
          true_and]
        intro h
        rw [hcl, hc] at h
        cases h
  | depotClose d =>
    obtain ⟨p, hp, hq⟩ := Res.bind_eq_ok.1 hs
    cases hq
    obtain ⟨dep, hd, (⟨_, rfl⟩ | ⟨_, w1, ds, hr, _, rfl⟩)⟩ := Depot.Close_ok hp
    · simp [consumed, accepted, discarded]
    · simp [consumed, accepted, discarded, Depot.remove_emitter hr]
  | depotSend d data =>
    obtain ⟨p, hp, hq⟩ := Res.bind_eq_ok.1 hs
    cases hq
    obtain ⟨dep, _, (⟨_, rfl⟩ | ⟨_, hsend⟩)⟩ := Depot.Send_ok hp
    · simp [consumed, accepted, discarded]
    · rcases Collector.Send_output hsend with ⟨he, _, hb⟩ | ⟨he, _, hb⟩
      · simp [consumed, accepted, discarded, he, hb]
      · simp [consumed, accepted, discarded, he, hb]
  | send data =>
    obtain ⟨p, hp, hq⟩ := Res.bind_eq_ok.1 hs
    cases hq
    rcases Collector.Send_output hp with ⟨he, _, hb⟩ | ⟨he, _, hb⟩
    · simp [consumed, accepted, discarded, he, hb]
    · simp [consumed, accepted, discarded, he, hb]
  | close =>
    obtain ⟨p, hp, hq⟩ := Res.bind_eq_ok.1 hs
    cases hq
    obtain ⟨_, ds, _, rfl⟩ := Collector.Close_result hp
    simp [consumed, accepted, discarded]
  | recv =>
    obtain ⟨p, hp, hq⟩ := Res.bind_eq_ok.1 hs
    cases hq
    rcases Collector.receive_eq_ok.1 hp with ⟨x, rest, hb, rfl⟩ | ⟨_, _, rfl⟩
    · simp [consumed, accepted, discarded, hb]
    · simp [consumed, accepted, discarded]
  | feed d x =>
    obtain ⟨p, hp, hq⟩ := Res.bind_eq_ok.1 hs
    cases hq
    obtain ⟨dep, hd, _, _, rfl⟩ := feedSource_ok hp
    simp [consumed, accepted, discarded]
  | closeSource d =>
    obtain ⟨p, hp, hq⟩ := Res.bind_eq_ok.1 hs
    cases hq
    obtain ⟨dep, hd, _, rfl⟩ := closeSourceOf_ok hp
    simp [consumed, accepted, discarded]

theorem exec_output {α : Type} {sched : List (Action α)} {w : World α}
    {q : World α × List (Obs α)} (he : exec w sched = Res.ok q) :
    consumed q.2 ++ q.1.c.emitter.buf = w.c.emitter.buf ++ accepted q.2 ∧
    (q.1.c.closed = false → discarded q.2 = []) := by
  induction sched generalizing w q with
  | nil =>
    simp only [exec, Res.ok.injEq] at he
    subst he
    simp [consumed, accepted, discarded]
  | cons a rest ih =>
    obtain ⟨w1, o, tr, hs, hr, htr⟩ := exec_cons_ok he
    obtain ⟨h1, h2⟩ := ih (q := (q.1, tr)) hr
    obtain ⟨h3, h4⟩ := step_output hs
    simp only at h1 h2 h3 h4
    rw [htr, consumed_cons, accepted_cons, discarded_cons]
    constructor
    · rw [List.append_assoc, h1, ← List.append_assoc, h3, List.append_assoc]
    · intro hopen
      have hw1 : w1.c.closed = false := by
        cases hk : w1.c.closed with
        | false => rfl
        | true =>
          have := exec_closed_mono hr hk
          simp only at this
          rw [hopen] at this
          cases this
      rw [h4 hw1, h2 hopen]
      rfl

theorem step_rejects_when_closed {α : Type} {w : World α} {a : Action α}
    {q : World α × Obs α} (hs : step w a = Res.ok q) (hc : w.c.closed = true) :
    accepted [q.2] = [] := by
  have hsend : ∀ (w2 : World α) (x : α) (r : World α × Option GoError),
      w2.c.closed = true → Collector.Send w2 x = Res.ok r → r.2 ≠ none := by
    intro w2 x r h2 hr
    rcases Collector.Send_output hr with ⟨_, h, _⟩ | ⟨h, _, _⟩
    · rw [h2] at h
      cases h
    · rw [h]
      simp
  cases a with
  | depot channel =>
    simp only [step, Res.ok.injEq] at hs
    subst hs
    rfl
  | run d pick =>
    obtain ⟨⟨w2, it⟩, hp, hq⟩ := Res.bind_eq_ok.1 hs
    cases hq
    obtain ⟨dep, hd, (⟨hex, _⟩ | ⟨x, rest, err, _, _, hsnd, hfw⟩)⟩ := Depot.runStep_ok hp
    · simp only at hex
      subst hex
      rfl
    · simp only at hsnd hfw
      subst hfw
      have := hsend _ x _ (by exact hc) hsnd
      cases err with
      | none => exact absurd rfl this
      | some e => rfl
  | depotClose d =>
    obtain ⟨p, hp, hq⟩ := Res.bind_eq_ok.1 hs
    cases hq
    rfl
  | depotSend d data =>
    obtain ⟨⟨w2, err⟩, hp, hq⟩ := Res.bind_eq_ok.1 hs
    cases hq
    obtain ⟨dep, _, (⟨_, h⟩ | ⟨_, hsnd⟩)⟩ := Depot.Send_ok hp
    · cases h
      rfl
    · have := hsend _ data _ hc hsnd
      cases err with
      | none => exact absurd rfl this
      | some e => rfl
  | send data =>
    obtain ⟨⟨w2, err⟩, hp, hq⟩ := Res.bind_eq_ok.1 hs
    cases hq
    have := hsend _ data _ hc hp
    cases err with
    | none => exact absurd rfl this
    | some e => rfl
  | close =>
    obtain ⟨p, hp, hq⟩ := Res.bind_eq_ok.1 hs
    cases hq
    rfl
  | recv =>
    obtain ⟨p, hp, hq⟩ := Res.bind_eq_ok.1 hs
    cases hq
    rfl
  | feed d x =>
    obtain ⟨p, hp, hq⟩ := Res.bind_eq_ok.1 hs
    cases hq
    rfl
  | closeSource d =>
    obtain ⟨p, hp, hq⟩ := Res.bind_eq_ok.1 hs
    cases hq
    rfl

theorem exec_rejects_when_closed {α : Type} {sched : List (Action α)} {w : World α}
    {q : World α × List (Obs α)} (he : exec w sched = Res.ok q) (hc : w.c.closed = true) :
    accepted q.2 = [] := by
  induction sched generalizing w q with
  | nil =>
    simp only [exec, Res.ok.injEq] at he
    subst he
    rfl
  | cons a rest ih =>
    obtain ⟨w1, o, tr, hs, hr, htr⟩ := exec_cons_ok he
    have h1 := step_rejects_when_closed hs hc
    have h2 := ih (q := (q.1, tr)) hr (step_closed_mono hs hc)
    simp only at h1 h2
    rw [htr, accepted_cons, h1, h2]
    rfl

/-! ## The schedule of the test -/

theorem set_self_of_getElem? {β : Type} {l : List β} {i : Nat} {a : β}
    (h : l[i]? = some a) : l.set i a = l := by
  apply List.ext_getElem?
  intro j
  rw [List.getElem?_set]
  by_cases hij : i = j
  · subst hij
    simp [(List.getElem?_eq_some.1 h).1, h]
  · simp [hij]

theorem zipper_round {α : Type} {w : World α} {d : Nat} (pick : Branch) (x : α)
    (rest : List (Action α))
    (hopen : w.c.closed = false) (hem : w.c.emitter.closed = false)
    (hbuf : w.c.emitter.buf = []) (hcap : 0 < w.c.emitter.cap) (hd : Idle w d) :
    exec w (Action.feed d x :: Action.run d pick :: Action.recv :: rest) =
      (exec w rest).bind fun q =>
        Res.ok (q.1, Obs.done :: Obs.ran (Iter.forwarded x none) ::
          Obs.received (some x) :: q.2) := by
  obtain ⟨dep, hdep, hc, hcl, hb, hsrc, hscap⟩ := hd
  have hlt : d < w.depots.length := (List.getElem?_eq_some.1 hdep).1
  obtain ⟨⟨buffer, ⟨ebuf, ecap, eclosed⟩, closed, closers⟩, ds⟩ := w
  obtain ⟨owner, ⟨sbuf, scap, sclosed⟩, closer⟩ := dep
  simp only at hopen hem hbuf hcap hdep hc hcl hb hsrc hscap hlt
  subst hopen hem hbuf hc hb hsrc
  have hfeed : feedSource (⟨⟨buffer, ⟨[], ecap, false⟩, false, closers⟩, ds⟩ : World α) d x
      = Res.ok ⟨⟨buffer, ⟨[], ecap, false⟩, false, closers⟩,
          ds.set d ⟨some (), ⟨[x], scap, false⟩, closer⟩⟩ := by
    simp [feedSource, hdep, Chan.send, hscap]
  have hd1 : (ds.set d ⟨some (), ⟨[x], scap, false⟩, closer⟩)[d]?
      = some (⟨some (), ⟨[x], scap, false⟩, closer⟩ : Depot α) :=
    List.getElem?_set_self hlt
  have hback : (ds.set d ⟨some (), ⟨[x], scap, false⟩, closer⟩).set d
      (⟨some (), ⟨[], scap, false⟩, closer⟩ : Depot α) = ds := by
    rw [List.set_set]
    exact set_self_of_getElem? hdep
  have hrun : Depot.runStep (⟨⟨buffer, ⟨[], ecap, false⟩, false, closers⟩,
        ds.set d ⟨some (), ⟨[x], scap, false⟩, closer⟩⟩ : World α) d pick
      = Res.ok (⟨⟨buffer, ⟨[x], ecap, false⟩, false, closers⟩, ds⟩,
          Iter.forwarded x none) := by
    rw [Depot.runStep_forward hd1 rfl rfl (Or.inr hcl)]
    simp [hback, Collector.Send, Chan.send, hcap]
  have hrecv : Collector.receive (⟨⟨buffer, ⟨[x], ecap, false⟩, false, closers⟩, ds⟩ : World α)
      = Res.ok (⟨⟨buffer, ⟨[], ecap, false⟩, false, closers⟩, ds⟩, some x) := by
    simp [Collector.receive, Collector.Listen, Chan.recv]
  simp only [exec, step, hfeed, hrun, hrecv, Res.bind_ok]
  cases exec (⟨⟨buffer, ⟨[], ecap, false⟩, false, closers⟩, ds⟩ : World α) rest <;> rfl

theorem exec_zipper {α : Type} {w : World α} (items : List (Nat × Branch × α))
    (hopen : w.c.closed = false) (hem : w.c.emitter.closed = false)
    (hbuf : w.c.emitter.buf = []) (hcap : 0 < w.c.emitter.cap)
    (hd : ∀ it ∈ items, Idle w it.1) :
    exec w (zipper items) = Res.ok (w, zipperTrace items) := by
  induction items with
  | nil => rfl
  | cons it rest ih =>
    obtain ⟨d, pick, x⟩ := it
    have h1 := hd (d, pick, x) (List.mem_cons_self _ _)
    have h2 := ih (fun it hit => hd it (List.mem_cons_of_mem _ hit))
    simp only [zipper, zipperTrace]
    rw [zipper_round pick x _ hopen hem hbuf hcap h1, h2]
    rfl

theorem consumed_zipperTrace {α : Type} (items : List (Nat × Branch × α)) :
    consumed (zipperTrace items) = items.map (fun it => it.2.2) ∧
    accepted (zipperTrace items) = items.map (fun it => it.2.2) := by
  induction items with
  | nil => exact ⟨rfl, rfl⟩
  | cons it rest ih =>
    obtain ⟨d, pick, x⟩ := it
    simp [zipperTrace, consumed, accepted, ih.1, ih.2]

theorem alternate_positions {α : Type} (pick : Branch) (as : List α) :
    ∀ (bs : List α), as.length = bs.length →
      ((alternate pick as bs).map (fun it => it.2.2)).length = 2 * as.length ∧
      ∀ i, i < as.length →
        ((alternate pick as bs).map (fun it => it.2.2))[2 * i]? = as[i]? ∧
        ((alternate pick as bs).map (fun it => it.2.2))[2 * i + 1]? = bs[i]? := by
  induction as with
  | nil =>
    intro bs _
    refine ⟨by simp [alternate], ?_⟩
    intro i hi
    cases hi
  | cons a as ih =>
    intro bs hlen
    cases bs with
    | nil => cases hlen
    | cons b bs =>
      have hlen1 : as.length = bs.length := by simpa using hlen
      obtain ⟨h1, h2⟩ := ih bs hlen1
      constructor
      · simp only [alternate, List.map_cons, List.length_cons, h1]
        omega
      · intro i hi
        cases i with
        | zero => simp [alternate]
        | succ j =>
          have hj : j < as.length := by simpa using hi
          obtain ⟨h3, h4⟩ := h2 j hj
          have e1 : 2 * (j + 1) = (2 * j + 1) + 1 := by omega
          have e2 : 2 * (j + 1) + 1 = ((2 * j + 1) + 1) + 1 := by omega
          constructor
          · rw [e1]
            simp only [alternate, List.map_cons, List.getElem?_cons_succ]
            exact h3
          · rw [e2]
            simp only [alternate, List.map_cons, List.getElem?_cons_succ]
            exact h4

theorem alternate_idle {α : Type} (pick : Branch) (as : List α) :
    ∀ (bs : List α), ∀ it ∈ alternate pick as bs, Idle (twoDepots : World α) it.1 := by
  have h0 : Idle (twoDepots : World α) 0 := ⟨_, rfl, rfl, rfl, rfl, rfl, Nat.one_pos⟩
  have h1 : Idle (twoDepots : World α) 1 := ⟨_, rfl, rfl, rfl, rfl, rfl, Nat.one_pos⟩
  induction as with
  | nil =>
    intro bs it hit
    simp [alternate] at hit
  | cons a as ih =>
    intro bs it hit
    cases bs with
    | nil => simp [alternate] at hit
    | cons b bs =>
      simp only [alternate, List.mem_cons] at hit
      rcases hit with rfl | rfl | hit
      · exact h0
      · exact h1
      · exact ih bs it hit

/-! ## Order of the items of one source -/

theorem source_frame {α : Type} {w w1 : World α}
    (h : ∀ i : Nat, (w1.depots[i]?).map (fun dep : Depot α => dep.ch.buf)
      = (w.depots[i]?).map (fun dep : Depot α => dep.ch.buf)) (d : Nat) :
    source w1 d = source w d := by
  simp only [source, h d]

theorem source_setCh {α : Type} {w : World α} {e : Nat} {dep : Depot α} (ch1 : Chan α)
    (hd : w.depots[e]? = some dep) (d : Nat) :
    source { w with depots := w.depots.set e { dep with ch := ch1 } } d
      = if d = e then ch1.buf else source w d := by
  have hlt : e < w.depots.length := (List.getElem?_eq_some.1 hd).1
  simp only [source]
  by_cases hde : d = e
  · subst hde
    simp [List.getElem?_set_self hlt]
  · rw [List.getElem?_set_ne (Ne.symm hde)]
    simp [hde]

theorem source_of_getElem? {α : Type} {w : World α} {d : Nat} {dep : Depot α}
    (hd : w.depots[d]? = some dep) : source w d = dep.ch.buf := by
  simp [source, hd]

theorem closeAll_frame {α β : Type} (f : Depot α → β)
    (hf : ∀ (dep : Depot α) (cl : Chan Unit), f { dep with closer := cl } = f dep)
    (l : List Nat) :
    ∀ (ds ds1 : List (Depot α)), closeAll l ds = Res.ok ds1 →
      ∀ i : Nat, (ds1[i]?).map f = (ds[i]?).map f := by
  induction l with
  | nil =>
    intro ds ds1 h i
    simp only [closeAll, Res.ok.injEq] at h
    rw [h]
  | cons d rest ih =>
    intro ds ds1 h i
    simp only [closeAll] at h
    obtain ⟨ds2, h2, h⟩ := Res.bind_eq_ok.1 h
    obtain ⟨dep, hd, _, rfl⟩ := closeCloser_eq_ok.1 h2
    rw [ih _ _ h i]
    exact set_frame f hd (hf _ _) i

theorem Depot.remove_source {α : Type} {w w1 : World α} {e : Nat}
    (hr : Depot.remove w e = Res.ok w1) (d : Nat) : source w1 d = source w d := by
  obtain ⟨dep, hd, (⟨_, rfl⟩ | ⟨_, rfl⟩)⟩ := Depot.remove_eq_ok.1 hr
  · refine source_frame (fun i => ?_) d
    show ((w.depots.set e { dep with collector := none })[i]?).map _ = _
    exact set_frame (fun dep : Depot α => dep.ch.buf) hd (by rfl) i
  · rfl

theorem fromDepot_append {α : Type} (origin : α → Nat) (d : Nat) (l1 l2 : List α) :
    fromDepot origin d (l1 ++ l2) = fromDepot origin d l1 ++ fromDepot origin d l2 := by
  simp [fromDepot]

theorem fromDepot_single {α : Type} (origin : α → Nat) (d : Nat) (x : α) :
    fromDepot origin d [x] = if origin x = d then [x] else [] := by
  by_cases h : origin x = d <;> simp [fromDepot, h]

theorem fed_cons {α : Type} (d : Nat) (a : Action α) (rest : List (Action α)) :
    fed d (a :: rest) = fed d [a] ++ fed d rest := by
  cases a with
  | feed e x => by_cases h : e = d <;> simp [fed, h]
  | depot ch => simp [fed]
  | run e p => simp [fed]
  | depotClose e => simp [fed]
  | depotSend e x => simp [fed]
  | send x => simp [fed]
  | close => simp [fed]
  | recv => simp [fed]
  | closeSource e => simp [fed]

theorem Tagged.of_source_eq {α : Type} {origin : α → Nat} {w w1 : World α}
    (h : Tagged origin w) (hsrc : ∀ d, source w1 d = source w d) : Tagged origin w1 := by
  intro d x hx
  rw [hsrc d] at hx
  exact h d x hx

theorem step_order_quiet {α : Type} (origin : α → Nat) (d : Nat) {w w1 : World α}
    {o : Obs α} {a : Action α} (htag : Tagged origin w)
    (hc : consumed [o] = []) (hb : w1.c.emitter.buf = w.c.emitter.buf)
    (hsrc : ∀ k, source w1 k = source w k) (hfed : fed d [a] = []) :
    Tagged origin w1 ∧
    (fromDepot origin d (consumed [o] ++ w1.c.emitter.buf) ++ source w1 d
        = fromDepot origin d w.c.emitter.buf ++ source w d ++ fed d [a] ∨
      (w1.c.closed = true ∧
        List.Sublist (fromDepot origin d (consumed [o] ++ w1.c.emitter.buf) ++ source w1 d)
          (fromDepot origin d w.c.emitter.buf ++ source w d ++ fed d [a]))) := by
  refine ⟨htag.of_source_eq hsrc, Or.inl ?_⟩
  rw [hc, hb, hsrc d, hfed]
  simp

theorem step_order {α : Type} (origin : α → Nat) (d : Nat) {w : World α} {a : Action α}
    {q : World α × Obs α} (htag : Tagged origin w) (ha : sourceDriven origin a = true)
    (hs : step w a = Res.ok q) :
    Tagged origin q.1 ∧
    (fromDepot origin d (consumed [q.2] ++ q.1.c.emitter.buf) ++ source q.1 d
        = fromDepot origin d w.c.emitter.buf ++ source w d ++ fed d [a] ∨
      (q.1.c.closed = true ∧
        List.Sublist (fromDepot origin d (consumed [q.2] ++ q.1.c.emitter.buf) ++ source q.1 d)
          (fromDepot origin d w.c.emitter.buf ++ source w d ++ fed d [a]))) := by
  cases a with
  | depot channel => cases ha
  | depotSend e x => cases ha
  | send x => cases ha
  | run e pick =>
    obtain ⟨⟨w2, it⟩, hp, hq⟩ := Res.bind_eq_ok.1 hs
    cases hq
    obtain ⟨dep, hd, (⟨hex, hrm⟩ | ⟨x, rest, err, hbuf, _, hsend, hfw⟩)⟩ := Depot.runStep_ok hp
    · simp only at hex hrm
      subst hex
      exact step_order_quiet origin d htag rfl (by rw [Depot.remove_emitter hrm])
        (Depot.remove_source hrm) rfl
    · simp only at hsend hfw
      subst hfw
      have hsw : source w e = x :: rest := by rw [source_of_getElem? hd, hbuf]
      have hox : origin x = e := htag e x (by rw [hsw]; exact List.mem_cons_self _ _)
      have hsrc1 : ∀ k, source
          { w with depots := w.depots.set e { dep with ch := { dep.ch with buf := rest } } } k
          = if k = e then rest else source w k := source_setCh _ hd
      have htag1 : ∀ (w2 : World α), (∀ k, source w2 k = if k = e then rest else source w k) →
          Tagged origin w2 := by
        intro w2 h2 k y hy
        rw [h2 k] at hy
        by_cases hk : k = e
        · rw [if_pos hk] at hy
          rw [hk]
          exact htag e y (by rw [hsw]; exact List.mem_cons_of_mem _ hy)
        · rw [if_neg hk] at hy
          exact htag k y hy
      rcases Collector.Send_eq_ok.1 hsend with ⟨hcl, hq⟩ | ⟨_, _, _, hq⟩
      · cases hq
        refine ⟨htag1 _ hsrc1, Or.inr ⟨hcl, ?_⟩⟩
        rw [hsrc1 d]
        simp only [consumed, fed, List.nil_append, List.append_nil]
        by_cases hde : d = e
        · rw [if_pos hde, hde, hsw]
          exact List.Sublist.append (List.Sublist.refl _) (List.sublist_cons_self _ _)
        · rw [if_neg hde]
      · cases hq
        refine ⟨htag1 _ hsrc1, Or.inl ?_⟩
        show fromDepot origin d (consumed [Obs.ran (Iter.forwarded x none)]
            ++ (w.c.emitter.buf ++ [x])) ++ source
              { w with depots :=
                  w.depots.set e { dep with ch := { dep.ch with buf := rest } } } d = _
        rw [hsrc1 d]
        simp only [consumed, fed, List.nil_append, List.append_nil, fromDepot_append,
          fromDepot_single]
        by_cases hde : d = e
        · rw [if_pos hde, hde, hsw, if_pos hox]
          simp
        · rw [if_neg hde, if_neg (fun h => hde (hox ▸ h).symm)]
          simp
  | depotClose e =>
    obtain ⟨p, hp, hq⟩ := Res.bind_eq_ok.1 hs
    cases hq
    obtain ⟨dep, hd, (⟨_, rfl⟩ | ⟨_, w1, ds, hr, hcl, rfl⟩)⟩ := Depot.Close_ok hp
    · exact step_order_quiet origin d htag rfl rfl (fun _ => rfl) rfl
    · obtain ⟨dep1, hd1, _, rfl⟩ := closeCloser_eq_ok.1 hcl
      refine step_order_quiet origin d htag rfl (by rw [← Depot.remove_emitter hr]) ?_ rfl
      intro k
      rw [← Depot.remove_source hr k]
      refine source_frame (fun i => ?_) k
      show ((w1.depots.set e { dep1 with closer := { dep1.closer with closed := true } })[i]?).map
        _ = _
      exact set_frame (fun dep : Depot α => dep.ch.buf) hd1 (by rfl) i
  | close =>
    obtain ⟨p, hp, hq⟩ := Res.bind_eq_ok.1 hs
    cases hq
    obtain ⟨_, ds, hall, rfl⟩ := Collector.Close_result hp
    refine step_order_quiet origin d htag rfl rfl ?_ rfl
    intro k
    exact source_frame
      (closeAll_frame (fun dep : Depot α => dep.ch.buf) (fun _ _ => rfl) _ _ _ hall) k
  | recv =>
    obtain ⟨p, hp, hq⟩ := Res.bind_eq_ok.1 hs
    cases hq
    rcases Collector.receive_eq_ok.1 hp with ⟨x, rest, hb, rfl⟩ | ⟨_, _, rfl⟩
    · refine ⟨htag.of_source_eq (fun _ => rfl), Or.inl ?_⟩
      show fromDepot origin d (consumed [Obs.received (some x)] ++ rest) ++ source w d = _
      rw [hb]
      simp [consumed, fed]
    · exact step_order_quiet origin d htag rfl rfl (fun _ => rfl) rfl
  | feed e x =>
    obtain ⟨p, hp, hq⟩ := Res.bind_eq_ok.1 hs
    cases hq
    obtain ⟨dep, hd, _, _, rfl⟩ := feedSource_ok hp
    have hox : origin x = e := by simpa [sourceDriven] using ha
    have hsw : source w e = dep.ch.buf := source_of_getElem? hd
    have hsrc1 : ∀ k, source
        { w with depots :=
            w.depots.set e { dep with ch := { dep.ch with buf := dep.ch.buf ++ [x] } } } k
        = if k = e then dep.ch.buf ++ [x] else source w k := source_setCh _ hd
    constructor
    · intro k y hy
      rw [hsrc1 k] at hy
      by_cases hk : k = e
      · rw [if_pos hk] at hy
        rw [hk]
        rcases List.mem_append.1 hy with h | h
        · exact htag e y (by rw [hsw]; exact h)
        · rw [List.mem_singleton.1 h]
          exact hox
      · rw [if_neg hk] at hy
        exact htag k y hy
    · refine Or.inl ?_
      simp only
      rw [hsrc1 d]
      by_cases hde : d = e
      · rw [if_pos hde, hde, hsw]
        simp [consumed, fed]
      · rw [if_neg hde]
        simp [consumed, fed, Ne.symm hde]
  | closeSource e =>
    obtain ⟨p, hp, hq⟩ := Res.bind_eq_ok.1 hs
    cases hq
    obtain ⟨dep, hd, _, rfl⟩ := closeSourceOf_ok hp
    refine step_order_quiet origin d htag rfl rfl ?_ rfl
    intro k
    refine source_frame (fun i => ?_) k
    show ((w.depots.set e { dep with ch := { dep.ch with closed := true } })[i]?).map _ = _
    exact set_frame (fun dep : Depot α => dep.ch.buf) hd (by rfl) i

theorem exec_order {α : Type} (origin : α → Nat) (d : Nat) (sched : List (Action α)) :
    ∀ (w : World α) (q : World α × List (Obs α)), Tagged origin w →
      (∀ a ∈ sched, sourceDriven origin a = true) → exec w sched = Res.ok q →
      List.Sublist (fromDepot origin d (consumed q.2 ++ q.1.c.emitter.buf) ++ source q.1 d)
        (fromDepot origin d w.c.emitter.buf ++ source w d ++ fed d sched) ∧
      (q.1.c.closed = false →
        fromDepot origin d (consumed q.2 ++ q.1.c.emitter.buf) ++ source q.1 d
          = fromDepot origin d w.c.emitter.buf ++ source w d ++ fed d sched) := by
  induction sched with
  | nil =>
    intro w q _ _ he
    simp only [exec, Res.ok.injEq] at he
    subst he
    simp [consumed, fed]
  | cons a rest ih =>
    intro w q htag hsched he
    obtain ⟨w1, o, tr, hs, hr, htr⟩ := exec_cons_ok he
    obtain ⟨htag1, hstep⟩ := step_order origin d htag (hsched a (List.mem_cons_self _ _)) hs
    obtain ⟨hsub, heq⟩ := ih w1 (q.1, tr) htag1
      (fun b hb => hsched b (List.mem_cons_of_mem _ hb)) hr
    simp only at hstep hsub heq
    have hshape : fromDepot origin d (consumed q.2 ++ q.1.c.emitter.buf) ++ source q.1 d
        = fromDepot origin d (consumed [o]) ++
          (fromDepot origin d (consumed tr ++ q.1.c.emitter.buf) ++ source q.1 d) := by
      rw [htr, consumed_cons]
      simp only [fromDepot_append, List.append_assoc]
    have hmid : fromDepot origin d (consumed [o]) ++
          (fromDepot origin d w1.c.emitter.buf ++ source w1 d ++ fed d rest)
        = (fromDepot origin d (consumed [o] ++ w1.c.emitter.buf) ++ source w1 d)
          ++ fed d rest := by
      simp only [fromDepot_append, List.append_assoc]
    have hend : (fromDepot origin d w.c.emitter.buf ++ source w d ++ fed d [a]) ++ fed d rest
        = fromDepot origin d w.c.emitter.buf ++ source w d ++ fed d (a :: rest) := by
      rw [fed_cons d a rest]
      simp only [List.append_assoc]
    constructor
    · rw [hshape, ← hend]
      refine List.Sublist.trans (List.Sublist.append (List.Sublist.refl _) hsub) ?_
      rw [hmid]
      refine List.Sublist.append ?_ (List.Sublist.refl _)
      rcases hstep with h | ⟨_, h⟩
      · rw [h]
      · exact h
    · intro hopen
      have hw1 : w1.c.closed = false := by
        cases hk : w1.c.closed with
        | false => rfl
        | true =>
          have := exec_closed_mono hr hk
          simp only at this
          rw [hopen] at this
          cases this
      rw [hshape, heq hopen, hmid, ← hend]
      rcases hstep with h | ⟨h, _⟩
      · rw [h]
      · rw [hw1] at h
        cases h

/-! ## Claims -/

/-- C1: `Collector.Send` fails exactly when the collector is closed.  In every
reachable world: when `closed` is set, and so in every world reached after a
`Close`, `Send` returns the error and leaves the world, hence the queue,
unchanged; when `closed` is not set and the queue has room, `Send` returns nil
and the queue is the old one with the item appended at its tail; and whenever
`Send` completes, its error is non-nil exactly when `closed` is set. -/
theorem Collector_Send_fails_iff_closed {α : Type} (w : World α) (x : α)
    (hr : Reachable w) :
    (w.c.closed = true →
      Collector.Send w x = Res.ok (w, some GoError.collectorIsClosed)) ∧
    (∀ (w0 w1 : World α) (sched : List (Action α)) (tr : List (Obs α)),
      Collector.Close w0 = Res.ok w1 → exec w1 sched = Res.ok (w, tr) →
      Collector.Send w x = Res.ok (w, some GoError.collectorIsClosed)) ∧
    (w.c.closed = false → w.c.emitter.buf.length < w.c.emitter.cap →
      Collector.Send w x = Res.ok
        ({ w with c := { w.c with
            emitter := { w.c.emitter with buf := w.c.emitter.buf ++ [x] } } }, none)) ∧
    (∀ q, Collector.Send w x = Res.ok q → (q.2 ≠ none ↔ w.c.closed = true)) := by
  have hclosed : w.c.closed = true →
      Collector.Send w x = Res.ok (w, some GoError.collectorIsClosed) :=
    fun hc => Collector.Send_eq_ok.2 (Or.inl ⟨hc, rfl⟩)
  refine ⟨hclosed, ?_, ?_, ?_⟩
  · intro w0 w1 sched tr hcl he
    apply hclosed
    have h1 : w1.c.closed = true := by
      obtain ⟨_, ds, _, rfl⟩ := Collector.Close_result hcl
      rfl
    exact exec_closed_mono he h1
  · intro hc hroom
    have hem : w.c.emitter.closed = false := by
      rw [hr.inv.emitter_closed]
      exact hc
    exact Collector.Send_eq_ok.2 (Or.inr ⟨hc, hem, hroom, rfl⟩)
  · intro q hq
    rcases Collector.Send_eq_ok.1 hq with ⟨hc, rfl⟩ | ⟨hc, _, _, rfl⟩
    · simp [hc]
    · simp [hc]

/-- C1 at `New(1)`, open with room, and at the world after `New(1); Close()`. -/
theorem Collector_Send_fails_iff_closed_witness :
    Collector.Send (New 1 : World Nat) 7 = Res.ok
      ({ c := { buffer := 1, emitter := { buf := [7], cap := 1, closed := false },
                closed := false, closers := [] },
         depots := [] }, none) ∧
    Collector.Send closedWorld 7 = Res.ok (closedWorld, some GoError.collectorIsClosed) :=
  ⟨(Collector_Send_fails_iff_closed (New 1) 7 ⟨1, [], [], rfl⟩).2.2.1 rfl (by decide),
   (Collector_Send_fails_iff_closed closedWorld 7
      ⟨1, [Action.close], [Obs.done], by decide⟩).1 rfl⟩

/-- C8: `Depot.Send` fails exactly on a depot whose `collector` is nil, and is
`Collector.Send` otherwise.  On a depot with a nil `collector` it returns the
error and the world is unchanged, so nothing is enqueued; on a depot with a
`collector` it is the call `Collector.Send` itself, with the same result and
the same next world; in both cases no depot, and so no source, is touched. -/
theorem Depot_Send_is_Collector_Send {α : Type} (w : World α) (d : Nat) (dep : Depot α)
    (x : α) (hd : w.depots[d]? = some dep) :
    (dep.collector = none → Depot.Send w d x = Res.ok (w, some GoError.closedDepot)) ∧
    (dep.collector = some () → Depot.Send w d x = Collector.Send w x) ∧
    (∀ q, Depot.Send w d x = Res.ok q →
      q.1.depots = w.depots ∧ (q.2 ≠ none → q.1 = w) ∧
      (dep.collector = none ↔ q.2 = some GoError.closedDepot)) := by
  refine ⟨?_, ?_, ?_⟩
  · intro hc
    simp [Depot.Send, hd, hc]
  · intro hc
    simp [Depot.Send, hd, hc]
  · intro q hq
    obtain ⟨dep1, hd1, hcase⟩ := Depot.Send_ok hq
    rw [hd] at hd1
    cases hd1
    rcases hcase with ⟨hc, rfl⟩ | ⟨hc, hs⟩
    · simp [hc]
    · rcases Collector.Send_eq_ok.1 hs with ⟨_, rfl⟩ | ⟨_, _, _, rfl⟩
      · simp [hc]
      · simp [hc]

/-- C8 on a world with one live depot and one depot whose `collector` is nil. -/
theorem Depot_Send_is_Collector_Send_witness :
    Depot.Send liveAndClosed 0 5 = Collector.Send liveAndClosed 5 ∧
    Depot.Send liveAndClosed 1 5 = Res.ok (liveAndClosed, some GoError.closedDepot) :=
  ⟨(Depot_Send_is_Collector_Send liveAndClosed 0
      { collector := some (), ch := { buf := [], cap := 1, closed := false },
        closer := { buf := [], cap := 0, closed := false } } 5 rfl).2.1 rfl,
   (Depot_Send_is_Collector_Send liveAndClosed 1
      { collector := none, ch := { buf := [], cap := 1, closed := false },
        closer := { buf := [], cap := 0, closed := true } } 5 rfl).1 rfl⟩

/-- C6, as stated, fails: after `New(1)`, `c.Depot(ch)` and `c.Close()` the
registry is empty while depot `0` still has its `collector` pointer, so a
created depot whose owner is present is not a key of the registry. -/
theorem registry_iff_owner_counterexample :
    exec (New 1 : World Nat) [Action.depot (Chan.make 1), Action.close] =
      Res.ok
        ({ c := { buffer := 1, emitter := { buf := [], cap := 1, closed := true },
                  closed := true, closers := [] },
           depots := [{ collector := some (),
                        ch := { buf := [], cap := 1, closed := false },
                        closer := { buf := [], cap := 0, closed := true } }] },
         [Obs.created 0, Obs.done]) ∧
    ¬ (∀ (w : World Nat) (d : Nat) (dep : Depot Nat), Reachable w →
        w.depots[d]? = some dep → (d ∈ w.c.closers ↔ dep.collector = some ())) := by
  refine ⟨by decide, ?_⟩
  intro h
  have h1 := h _ 0 _ ⟨1, [Action.depot (Chan.make 1), Action.close], _,
    (by decide : exec (New 1 : World Nat) [Action.depot (Chan.make 1), Action.close] =
      Res.ok
        ({ c := { buffer := 1, emitter := { buf := [], cap := 1, closed := true },
                  closed := true, closers := [] },
           depots := [{ collector := some (),
                        ch := { buf := [], cap := 1, closed := false },
                        closer := { buf := [], cap := 0, closed := true } }] },
         [Obs.created 0, Obs.done]))⟩ rfl
  exact absurd (h1.2 rfl) (by decide)

/-- C6, amended: in every reachable world each key of the registry is a
created depot whose `collector` pointer is still present and whose closer has
not been closed; and while `Collector.Close` has not been called (`closed` is
false) a created depot is a key of the registry exactly when its `collector`
pointer is present. -/
theorem registry_invariant {α : Type} (w : World α) (hr : Reachable w) :
    (∀ d ∈ w.c.closers, ∃ dep, w.depots[d]? = some dep ∧
      dep.collector = some () ∧ dep.closer.closed = false) ∧
    (w.c.closed = false → ∀ d dep, w.depots[d]? = some dep →
      (d ∈ w.c.closers ↔ dep.collector = some ())) := by
  refine ⟨hr.inv.registered, ?_⟩
  intro hopen d dep hd
  constructor
  · intro hmem
    obtain ⟨dep1, h1, h2, _⟩ := hr.inv.registered d hmem
    rw [hd] at h1
    cases h1
    exact h2
  · exact hr.inv.open_complete hopen d dep hd

/-- C6 amended, at the world after `New(1)`, two `c.Depot` calls and a
`Depot.Close` of the second depot. -/
theorem registry_invariant_witness :
    (∀ d ∈ liveAndClosed.c.closers, ∃ dep, liveAndClosed.depots[d]? = some dep ∧
      dep.collector = some () ∧ dep.closer.closed = false) ∧
    (liveAndClosed.c.closed = false → ∀ d dep, liveAndClosed.depots[d]? = some dep →
      (d ∈ liveAndClosed.c.closers ↔ dep.collector = some ())) :=
  registry_invariant liveAndClosed
    ⟨1, [Action.depot (Chan.make 1), Action.depot (Chan.make 1), Action.depotClose 1],
      [Obs.created 0, Obs.created 1, Obs.done], by decide⟩

/-- C7 fails in the code: after `New(1)`, `d := c.Depot(ch)` and `c.Close()`,
the closer of `d` has been closed but `d.collector` is still non-nil, so
`d.Close()` passes its guard and closes the closer a second time, which
panics. -/
theorem Depot_Close_after_Collector_Close_panics :
    exec (New 1 : World Nat) [Action.depot (Chan.make 1), Action.close] =
      Res.ok
        ({ c := { buffer := 1, emitter := { buf := [], cap := 1, closed := true },
                  closed := true, closers := [] },
           depots := [{ collector := some (),
                        ch := { buf := [], cap := 1, closed := false },
                        closer := { buf := [], cap := 0, closed := true } }] },
         [Obs.created 0, Obs.done]) ∧
    exec (New 1 : World Nat)
      [Action.depot (Chan.make 1), Action.close, Action.depotClose 0] = Res.panic := by
  constructor <;> decide

/-- C10 fails in the code: after `New(1)`, `d := c.Depot(ch)` with one item
ready on `ch`, and `d.Close()`, both cases of the `select` in `Run` are ready;
when the data case is taken `d.collector.Send` runs on the nil `collector`
and panics, while the stop case returns. -/
theorem Run_after_Depot_Close_panics :
    exec (New 1 : World Nat)
      [Action.depot { buf := [7], cap := 1, closed := false }, Action.depotClose 0] =
      Res.ok
        ({ c := { buffer := 1, emitter := { buf := [], cap := 1, closed := false },
                  closed := false, closers := [] },
           depots := [{ collector := none,
                        ch := { buf := [7], cap := 1, closed := false },
                        closer := { buf := [], cap := 0, closed := true } }] },
         [Obs.created 0, Obs.done]) ∧
    exec (New 1 : World Nat)
      [Action.depot { buf := [7], cap := 1, closed := false }, Action.depotClose 0,
       Action.run 0 Branch.data] = Res.panic ∧
    exec (New 1 : World Nat)
      [Action.depot { buf := [7], cap := 1, closed := false }, Action.depotClose 0,
       Action.run 0 Branch.stop] =
      Res.ok
        ({ c := { buffer := 1, emitter := { buf := [], cap := 1, closed := false },
                  closed := false, closers := [] },
           depots := [{ collector := none,
                        ch := { buf := [7], cap := 1, closed := false },
                        closer := { buf := [], cap := 0, closed := true } }] },
         [Obs.created 0, Obs.done, Obs.ran Iter.exited]) := by
  refine ⟨?_, ?_, ?_⟩ <;> decide

/-- C5, as stated, fails: an item that `Run` takes from its source after
`c.Close()` is passed to `Collector.Send`, which rejects it, and `Run` drops
the error.  In the first schedule the depot was created before the close and
the `select` takes the data case; in the second the depot is created after the
close, so only the data case is ready.  In both the depot still has its
`collector`, the item `7` is gone from the source, the consumer sees the end of
the stream without it, and no caller was handed an error. -/
theorem no_loss_counterexample :
    exec (New 1 : World Nat)
      [Action.depot (Chan.make 1), Action.feed 0 7, Action.close,
       Action.run 0 Branch.data, Action.recv] =
      Res.ok
        ({ c := { buffer := 1, emitter := { buf := [], cap := 1, closed := true },
                  closed := true, closers := [] },
           depots := [{ collector := some (),
                        ch := { buf := [], cap := 1, closed := false },
                        closer := { buf := [], cap := 0, closed := true } }] },
         [Obs.created 0, Obs.done, Obs.done,
          Obs.ran (Iter.forwarded 7 (some GoError.collectorIsClosed)),
          Obs.received none]) ∧
    exec (New 1 : World Nat)
      [Action.close, Action.depot { buf := [7], cap := 1, closed := false },
       Action.run 0 Branch.stop, Action.recv] =
      Res.ok
        ({ c := { buffer := 1, emitter := { buf := [], cap := 1, closed := true },
                  closed := true, closers := [0] },
           depots := [{ collector := some (),
                        ch := { buf := [], cap := 1, closed := false },
                        closer := { buf := [], cap := 0, closed := false } }] },
         [Obs.done, Obs.created 0,
          Obs.ran (Iter.forwarded 7 (some GoError.collectorIsClosed)),
          Obs.received none]) := by
  constructor <;> decide

/-- C2: on every reachable world whose collector is not yet closed,
`Collector.Close` completes; it sets `closed`, closes the emitter and leaves
its buffered items and capacity as they were; it closes the closer of every
registered depot and changes nothing else in any depot; it leaves the registry
empty.  A consumer that then drains `Listen` receives exactly the items queued
before the close, in order, and then sees the stream end, as does every later
receive. -/
theorem Collector_Close_spec {α : Type} (w : World α) (hr : Reachable w)
    (hopen : w.c.closed = false) :
    ∃ w1, Collector.Close w = Res.ok w1 ∧
      w1.c.closed = true ∧
      w1.c.emitter = { w.c.emitter with closed := true } ∧
      w.c.emitter.closed = false ∧
      (∀ d ∈ w.c.closers, ∃ dep, w.depots[d]? = some dep ∧ dep.closer.closed = false ∧
        w1.depots[d]? = some { dep with closer := { dep.closer with closed := true } }) ∧
      (∀ d, d ∉ w.c.closers → w1.depots[d]? = w.depots[d]?) ∧
      w1.c.closers = [] ∧
      (∃ w2, drain w1 = Res.ok (w2, w.c.emitter.buf) ∧
        w2.c.emitter.buf = [] ∧ w2.c.emitter.closed = true ∧
        Collector.receive w2 = Res.ok (w2, none)) := by
  have hinv := hr.inv
  have hem : w.c.emitter.closed = false := by
    rw [hinv.emitter_closed]
    exact hopen
  obtain ⟨ds1, hall, hds⟩ := closeAll_spec hinv.nodup
    (fun d hd => by
      obtain ⟨dep, h1, _, h3⟩ := hinv.registered d hd
      exact ⟨dep, h1, h3⟩)
  refine ⟨{ c := { w.c with closed := true, emitter := { w.c.emitter with closed := true },
                            closers := [] }, depots := ds1 }, ?_, rfl, rfl, hem, ?_, ?_, rfl, ?_⟩
  · simp only [Collector.Close, Chan.close, hem, Bool.false_eq_true, if_false, Res.bind_ok,
      hall]
  · intro d hd
    obtain ⟨dep, h1, _, h3⟩ := hinv.registered d hd
    refine ⟨dep, h1, h3, ?_⟩
    show ds1[d]? = _
    rw [hds d, h1]
    simp [hd]
  · intro d hd
    show ds1[d]? = _
    rw [hds d]
    cases w.depots[d]? <;> simp [hd]
  · refine ⟨_, drainLoop_closed w.c.emitter.buf _ _ [] rfl rfl (Nat.lt_succ_self _), rfl, rfl, ?_⟩
    exact Collector.receive_eq_ok.2 (Or.inr ⟨rfl, rfl, rfl⟩)

/-- C2 at the world after `New(2)`, two `c.Depot` calls and two sends. -/
theorem Collector_Close_spec_witness :
    ∃ w1, Collector.Close busyWorld = Res.ok w1 ∧
      w1.c.closed = true ∧
      w1.c.emitter = { busyWorld.c.emitter with closed := true } ∧
      busyWorld.c.emitter.closed = false ∧
      (∀ d ∈ busyWorld.c.closers, ∃ dep, busyWorld.depots[d]? = some dep ∧
        dep.closer.closed = false ∧
        w1.depots[d]? = some { dep with closer := { dep.closer with closed := true } }) ∧
      (∀ d, d ∉ busyWorld.c.closers → w1.depots[d]? = busyWorld.depots[d]?) ∧
      w1.c.closers = [] ∧
      (∃ w2, drain w1 = Res.ok (w2, busyWorld.c.emitter.buf) ∧
        w2.c.emitter.buf = [] ∧ w2.c.emitter.closed = true ∧
        Collector.receive w2 = Res.ok (w2, none)) :=
  Collector_Close_spec busyWorld
    ⟨2, [Action.depot (Chan.make 1), Action.depot (Chan.make 1), Action.send 3, Action.send 4],
      [Obs.created 0, Obs.created 1, Obs.sent 3 none, Obs.sent 4 none], by decide⟩
    rfl

/-- C9: in every reachable world, whenever `Run` on a depot returns, the depot
is not a key of the registry, its `collector` is nil, and every other depot and
every other registry key is as before.  `Run` does return on both exits: when
the closer has been closed and the `select` takes that case; when the source is
closed and empty; and, after forwarding what is buffered, when the source is
closed and the sends do not block.  On the first two exits the world `Run`
leaves is the one `remove` produces.  On a depot whose `collector` is already
nil, `remove` changes nothing.  The number of iterations allowed to the loop
is never the reason for a result: more iterations give the same result. -/
theorem Run_always_deregisters {α : Type} (w : World α) (d : Nat) (dep : Depot α)
    (picks : Nat → Branch) (hr : Reachable w) (hd : w.depots[d]? = some dep) :
    (∀ w1, Depot.Run w d picks = Res.ok w1 →
      d ∉ w1.c.closers ∧ (∃ dep1, w1.depots[d]? = some dep1 ∧ dep1.collector = none) ∧
      (∀ k, k ≠ d → w1.depots[k]? = w.depots[k]?) ∧
      (∀ k, k ≠ d → (k ∈ w1.c.closers ↔ k ∈ w.c.closers))) ∧
    (dep.closer.closed = true → picks 0 = Branch.stop →
      ∃ w1, Depot.Run w d picks = Res.ok w1 ∧ Depot.remove w d = Res.ok w1) ∧
    (dep.ch.buf = [] → dep.ch.closed = true →
      ∃ w1, Depot.Run w d picks = Res.ok w1 ∧ Depot.remove w d = Res.ok w1) ∧
    (dep.ch.closed = true → dep.collector = some () →
      (w.c.closed = true ∨ w.c.emitter.buf.length + dep.ch.buf.length ≤ w.c.emitter.cap) →
      ∃ w1, Depot.Run w d picks = Res.ok w1) ∧
    (dep.collector = none → Depot.remove w d = Res.ok w) ∧
    (∀ k, Depot.runLoop (Depot.runBound w d + k) w d picks = Depot.Run w d picks) := by
  have hbound : Depot.runBound w d = dep.ch.buf.length + 1 := by
    simp [Depot.runBound, hd]
  refine ⟨?_, ?_, ?_, ?_, ?_, Depot.runLoop_fuel_add w picks⟩
  · intro w1 h
    exact Depot.runLoop_post _ w w1 picks hr.inv h
  · intro hcl hpick
    obtain ⟨w1, hw1⟩ := Depot.remove_total hd
    refine ⟨w1, ?_, hw1⟩
    simp [Depot.Run, hbound, Depot.runLoop, hpick, Depot.runStep_stop hd hcl, hw1]
  · intro hb hcl
    obtain ⟨w1, hw1⟩ := Depot.remove_total hd
    refine ⟨w1, ?_, hw1⟩
    simp [Depot.Run, hbound, Depot.runLoop, Depot.runStep_exhausted (picks 0) hd hb hcl, hw1]
  · intro hcl hc hroom
    rw [Depot.Run, hbound]
    refine Depot.runLoop_total dep.ch.buf w dep picks _ hd rfl hcl hc ?_ (Nat.lt_succ_self _)
    rcases hroom with h | h
    · exact Or.inl h
    · cases hk : w.c.closed with
      | true => exact Or.inl rfl
      | false =>
        refine Or.inr ⟨?_, h⟩
        rw [hr.inv.emitter_closed]
        exact hk
  · intro hc
    exact Depot.remove_eq_ok.2 ⟨dep, hd, Or.inr ⟨hc, rfl⟩⟩

/-- C9 at the world after `New(2)` and two `c.Depot` calls, the first on a
closed source that still holds two items: `Run` on depot `0` forwards both and
returns, and the depot is then deregistered with a nil `collector`. -/
theorem Run_always_deregisters_witness :
    Depot.Run pendingWorld 0 (fun _ => Branch.data) = Res.ok
      { c := { buffer := 2, emitter := { buf := [7, 8], cap := 2, closed := false },
               closed := false, closers := [1] },
        depots := [{ collector := none, ch := { buf := [], cap := 2, closed := true },
                     closer := { buf := [], cap := 0, closed := false } },
                   { collector := some (), ch := { buf := [], cap := 1, closed := false },
                     closer := { buf := [], cap := 0, closed := false } }] } ∧
    ∃ w1, Depot.Run pendingWorld 0 (fun _ => Branch.data) = Res.ok w1 ∧
      0 ∉ w1.c.closers ∧ (∃ dep1, w1.depots[0]? = some dep1 ∧ dep1.collector = none) ∧
      (∀ k, k ≠ 0 → w1.depots[k]? = pendingWorld.depots[k]?) ∧
      (∀ k, k ≠ 0 → (k ∈ w1.c.closers ↔ k ∈ pendingWorld.c.closers)) := by
  have h := Run_always_deregisters pendingWorld 0
    { collector := some (), ch := { buf := [7, 8], cap := 2, closed := true },
      closer := { buf := [], cap := 0, closed := false } } (fun _ => Branch.data)
    ⟨2, [Action.depot { buf := [7, 8], cap := 2, closed := true },
         Action.depot (Chan.make 1)], [Obs.created 0, Obs.created 1], by decide⟩ rfl
  refine ⟨by decide, ?_⟩
  obtain ⟨w1, hw1⟩ := h.2.2.2.1 rfl rfl (Or.inr (by decide))
  exact ⟨w1, hw1, h.1 w1 hw1⟩

/-- C5, amended: along every schedule the output, that is what the consumer
has received followed by what is still queued, is the initial queue followed by
exactly the items whose `Send` returned nil, each once and in the order of the
calls, whether the call was made by `Run` on an item taken from a source, by
`Depot.Send` or by `Collector.Send`; a `Send` that hands an error to its
caller enqueues nothing; and while the collector has not been closed no item
that `Run` took from a source was rejected, so every such item is in the
output.  Once the collector has been closed no send is accepted any more and
the output does not grow, whatever `Run` takes from the sources. -/
theorem accepted_sends_delivered_once {α : Type} (w w1 : World α)
    (sched : List (Action α)) (tr : List (Obs α))
    (he : exec w sched = Res.ok (w1, tr)) :
    consumed tr ++ w1.c.emitter.buf = w.c.emitter.buf ++ accepted tr ∧
    (w1.c.closed = false → discarded tr = []) ∧
    (w.c.closed = true → accepted tr = [] ∧
      consumed tr ++ w1.c.emitter.buf = w.c.emitter.buf) := by
  refine ⟨(exec_output he).1, (exec_output he).2, ?_⟩
  intro hc
  have h := exec_rejects_when_closed he hc
  refine ⟨h, ?_⟩
  have h1 := (exec_output he).1
  simp only at h h1
  rw [h1, h]
  simp

/-- C5 amended, on `New(2)`: one item relayed by `Run`, one sent through
`Depot.Send`, one receive. -/
theorem accepted_sends_delivered_once_witness :
    consumed [Obs.created 0, Obs.done, Obs.ran (Iter.forwarded 7 none), Obs.sent 8 none,
        Obs.received (some 7)] ++ [8]
      = (New 2 : World Nat).c.emitter.buf ++
        accepted [Obs.created 0, Obs.done, Obs.ran (Iter.forwarded 7 none), Obs.sent 8 none,
          Obs.received (some 7)] ∧
    discarded [Obs.created 0, Obs.done, Obs.ran (Iter.forwarded (7 : Nat) none),
      Obs.sent 8 none, Obs.received (some 7)] = [] :=
  ⟨(accepted_sends_delivered_once (New 2)
      { c := { buffer := 2, emitter := { buf := [8], cap := 2, closed := false },
               closed := false, closers := [0] },
        depots := [{ collector := some (), ch := { buf := [], cap := 1, closed := false },
                     closer := { buf := [], cap := 0, closed := false } }] }
      [Action.depot (Chan.make 1), Action.feed 0 7, Action.run 0 Branch.data,
       Action.depotSend 0 8, Action.recv]
      [Obs.created 0, Obs.done, Obs.ran (Iter.forwarded 7 none), Obs.sent 8 none,
       Obs.received (some 7)] (by decide)).1,
   (accepted_sends_delivered_once (New 2)
      { c := { buffer := 2, emitter := { buf := [8], cap := 2, closed := false },
               closed := false, closers := [0] },
        depots := [{ collector := some (), ch := { buf := [], cap := 1, closed := false },
                     closer := { buf := [], cap := 0, closed := false } }] }
      [Action.depot (Chan.make 1), Action.feed 0 7, Action.run 0 Branch.data,
       Action.depotSend 0 8, Action.recv]
      [Obs.created 0, Obs.done, Obs.ran (Iter.forwarded 7 none), Obs.sent 8 none,
       Obs.received (some 7)] (by decide)).2.1 rfl⟩

/-- C4: on a reachable open collector with an empty queue of capacity at least
one, when items are sent to idle sources one at a time and each is forwarded by
its depot and received before the next is sent, the schedule completes, the
world is as before, and the consumer receives exactly the sent items in the
order they were sent, which is also the sequence of accepted sends.  In
particular, after `New(1)` and two `c.Depot` calls, for items `a_i` sent to
depot `0` in alternation with items `b_i` sent to depot `1`, `n` of each, the
consumer receives `2 * n` items, `a_i` at position `2 * i` and `b_i` at
position `2 * i + 1`. -/
theorem merged_output_in_feed_order {α : Type} (w : World α)
    (items : List (Nat × Branch × α)) (hr : Reachable w)
    (hopen : w.c.closed = false) (hbuf : w.c.emitter.buf = [])
    (hcap : 0 < w.c.emitter.cap) (hd : ∀ it ∈ items, Idle w it.1) :
    exec w (zipper items) = Res.ok (w, zipperTrace items) ∧
    consumed (zipperTrace items) = items.map (fun it => it.2.2) ∧
    accepted (zipperTrace items) = items.map (fun it => it.2.2) ∧
    (∀ (pick : Branch) (as bs : List α), as.length = bs.length →
      exec (New 1) (Action.depot (Chan.make 1) :: Action.depot (Chan.make 1) ::
          zipper (alternate pick as bs))
        = Res.ok (twoDepots,
            Obs.created 0 :: Obs.created 1 :: zipperTrace (alternate pick as bs)) ∧
      (twoDepots : World α).c.emitter.cap = 1 ∧
      (consumed (zipperTrace (alternate pick as bs))).length = 2 * as.length ∧
      ∀ i, i < as.length →
        (consumed (zipperTrace (alternate pick as bs)))[2 * i]? = as[i]? ∧
        (consumed (zipperTrace (alternate pick as bs)))[2 * i + 1]? = bs[i]?) := by
  have hem : w.c.emitter.closed = false := by
    rw [hr.inv.emitter_closed]
    exact hopen
  refine ⟨exec_zipper items hopen hem hbuf hcap hd, (consumed_zipperTrace items).1,
    (consumed_zipperTrace items).2, ?_⟩
  intro pick as bs hlen
  have hrun : exec (twoDepots : World α) (zipper (alternate pick as bs))
      = Res.ok (twoDepots, zipperTrace (alternate pick as bs)) :=
    exec_zipper _ rfl rfl rfl Nat.one_pos (alternate_idle pick as bs)
  have hpos := alternate_positions pick as bs hlen
  rw [(consumed_zipperTrace (alternate pick as bs)).1]
  refine ⟨?_, rfl, hpos.1, hpos.2⟩
  have e : (Collector.Depot (Collector.Depot (New 1 : World α) (Chan.make 1)).1
      (Chan.make 1)).1 = twoDepots := rfl
  simp only [exec, step, Res.bind_ok]
  rw [e, hrun]
  rfl

/-- C4 at the world of the test, for the pairs `1, 2` and `10, 20`. -/
theorem merged_output_in_feed_order_witness :
    exec (twoDepots : World Nat) (zipper (alternate Branch.data [1, 2] [10, 20]))
      = Res.ok (twoDepots, zipperTrace (alternate Branch.data [1, 2] [10, 20])) ∧
    consumed (zipperTrace (alternate Branch.data [1, 2] [10, 20])) = [1, 10, 2, 20] :=
  ⟨(merged_output_in_feed_order twoDepots (alternate Branch.data [1, 2] [10, 20])
      ⟨1, [Action.depot (Chan.make 1), Action.depot (Chan.make 1)],
        [Obs.created 0, Obs.created 1], rfl⟩
      rfl rfl Nat.one_pos (alternate_idle Branch.data [1, 2] [10, 20])).1,
   (merged_output_in_feed_order twoDepots (alternate Branch.data [1, 2] [10, 20])
      ⟨1, [Action.depot (Chan.make 1), Action.depot (Chan.make 1)],
        [Obs.created 0, Obs.created 1], rfl⟩
      rfl rfl Nat.one_pos (alternate_idle Branch.data [1, 2] [10, 20])).2.1⟩

/-- C3: take any tagging of the items such that every item waiting in, or
later sent to, the source of a depot carries that depot as its tag.  Along
every interleaving of `Run` iterations of any depots (whichever case each
`select` takes), consumer receives, producer sends and the closing operations,
and for every depot `d`: the items tagged `d` in the output (what the consumer
received followed by what is still queued), followed by the items still waiting
in the source of `d`, form a subsequence of the items tagged `d` initially
queued, followed by what the source held and what was then sent to it, in that
order; so the items of one source appear in the output in the order in which
that source produced them.  While the collector has not been closed the two
sequences are equal. -/
theorem per_source_order {α : Type} (origin : α → Nat) (w w1 : World α)
    (sched : List (Action α)) (tr : List (Obs α)) (d : Nat)
    (htag : Tagged origin w) (hsched : ∀ a ∈ sched, sourceDriven origin a = true)
    (he : exec w sched = Res.ok (w1, tr)) :
    List.Sublist (fromDepot origin d (consumed tr ++ w1.c.emitter.buf) ++ source w1 d)
      (fromDepot origin d w.c.emitter.buf ++ source w d ++ fed d sched) ∧
    (w1.c.closed = false →
      fromDepot origin d (consumed tr ++ w1.c.emitter.buf) ++ source w1 d
        = fromDepot origin d w.c.emitter.buf ++ source w d ++ fed d sched) :=
  exec_order origin d sched w (w1, tr) htag hsched he

/-- C3 on the world of the test for depot `0`, whose items `(0, 10)` and
`(0, 11)` reach the output in that order around the item of depot `1`. -/
theorem per_source_order_witness :
    List.Sublist
      (fromDepot Prod.fst 0 (consumed relayTrace ++ relayWorld.c.emitter.buf)
        ++ source relayWorld 0)
      (fromDepot Prod.fst 0 (twoDepots : World (Nat × Nat)).c.emitter.buf
        ++ source (twoDepots : World (Nat × Nat)) 0 ++ fed 0 relaySchedule) ∧
    fromDepot Prod.fst 0 (consumed relayTrace ++ relayWorld.c.emitter.buf)
        ++ source relayWorld 0
      = fromDepot Prod.fst 0 (twoDepots : World (Nat × Nat)).c.emitter.buf
        ++ source (twoDepots : World (Nat × Nat)) 0 ++ fed 0 relaySchedule ∧
    fromDepot Prod.fst 0 (consumed relayTrace ++ relayWorld.c.emitter.buf)
      = [(0, 10), (0, 11)] := by
  have htag : Tagged Prod.fst (twoDepots : World (Nat × Nat)) := by
    intro d x hx
    match d, hx with
    | 0, hx => simp [source, twoDepots, Collector.Depot, New, Chan.make] at hx
    | 1, hx => simp [source, twoDepots, Collector.Depot, New, Chan.make] at hx
    | n + 2, hx => simp [source, twoDepots, Collector.Depot, New, Chan.make] at hx
  have h := per_source_order Prod.fst twoDepots relayWorld relaySchedule relayTrace 0
    htag (by decide) (by decide)
  exact ⟨h.1, h.2 rfl, by decide⟩

end collector
